import Mathlib

/-!
# Quiz Royale: a shallow embedding of the round-based elimination engine

This file embeds the server of the quiz-royale repository (the variant with
ghost players and parties) as pure Lean functions, and proves properties of
the game lifecycle, the per-round elimination algorithm, the ghost population
simulator, the party registry and the daily play ledger.

JS `Map`s are modelled as association lists with `Map.set`/`Map.get`/
`Map.delete` semantics (`mset`/`mget`/`mdel`).  `Math.random()` draws are
modelled as rational parameters in `[0,1)`, passed explicitly.  JS numbers
are modelled as `Nat`/`Int`/`Rat`; `Math.floor` is the rational floor and
`Math.round(x)` on nonnegative rationals is `floor(x + 1/2)`.
-/

namespace QuizRoyale

/-- Lifecycle status of the game state machine (`gameState.status`). -/
inductive GStatus
  | waiting
  | starting
  | playing
  | finished
  deriving DecidableEq

/-- A stored terminal result, `{ position, totalPlayers, questionsCorrect, gameNumber }`. -/
structure StoredResult where
  position : Nat
  totalPlayers : Nat
  questionsCorrect : Nat
  gameNumber : Nat
  deriving DecidableEq

/-- A daily-play-ledger record, `{ hasPlayed, result }`. -/
structure LedgerRecord where
  hasPlayed : Bool
  result : StoredResult
  deriving DecidableEq

/-- One connected session's data (`gameState.players` values).  The fields
`ready`, `leftGame` and `participatedInGame` are absent (undefined, hence
falsy) on a fresh JS player object; they are modelled as `Bool`s that start
`false`. -/
structure PlayerState where
  persistentId : Option String
  name : String
  alive : Bool
  currentAnswer : Option Int
  correctAnswers : Nat
  hasPlayedToday : Bool
  todayResult : Option StoredResult
  partyCode : Option String
  partyDisplayName : Option String
  ready : Bool
  leftGame : Bool
  participatedInGame : Bool
  deriving DecidableEq

/-- A party member's status: `'waiting' | 'alive' | 'eliminated'`. -/
inductive MemberStatus
  | waiting
  | alive
  | eliminated
  deriving DecidableEq

/-- One party member, `{ socketId, displayName, status, eliminatedOnQuestion }`. -/
structure PartyMember where
  socketId : String
  displayName : String
  status : MemberStatus
  eliminatedOnQuestion : Option Nat
  deriving DecidableEq

/-- A party, `{ code, members, createdAt }`. -/
structure Party where
  code : String
  members : List PartyMember
  createdAt : Nat
  deriving DecidableEq

/-- A quiz question, `{ question, correct, answers, difficulty, category }`. -/
structure Question where
  question : String
  correct : String
  answers : List String
  difficulty : String
  category : String
  deriving DecidableEq

/-- JS `Map.get`: the first binding of the key, if any. -/
def mget {α : Type} (m : List (String × α)) (k : String) : Option α :=
  match m with
  | [] => none
  | (k', v) :: rest => if k' = k then some v else mget rest k

/-- JS `Map.set`: replace the binding in place if the key exists, else append. -/
def mset {α : Type} (m : List (String × α)) (k : String) (v : α) : List (String × α) :=
  match m with
  | [] => [(k, v)]
  | (k', v') :: rest => if k' = k then (k, v) :: rest else (k', v') :: mset rest k v

/-- JS `Map.delete`: remove the (first) binding of the key. -/
def mdel {α : Type} (m : List (String × α)) (k : String) : List (String × α) :=
  match m with
  | [] => []
  | (k', v) :: rest => if k' = k then rest else (k', v) :: mdel rest k

/-- `parties.get(code)`, parties being a code-keyed JS `Map`. -/
def pget (ps : List Party) (c : String) : Option Party :=
  match ps with
  | [] => none
  | q :: rest => if q.code = c then some q else pget rest c

/-- `parties.set(pt.code, pt)`. -/
def pset (ps : List Party) (pt : Party) : List Party :=
  match ps with
  | [] => [pt]
  | q :: rest => if q.code = pt.code then pt :: rest else q :: pset rest pt

/-- `parties.delete(code)`. -/
def pdel (ps : List Party) (c : String) : List Party :=
  match ps with
  | [] => []
  | q :: rest => if q.code = c then rest else q :: pdel rest c

/-- The whole server state: `gameState`, the `parties` map and the daily
play ledger `todayPlayers` (`date` plus `persistentId -> record`). -/
structure ServerState where
  status : GStatus
  players : List (String × PlayerState)
  currentQuestion : Nat
  questions : List Question
  totalParticipants : Nat
  waitingCount : Nat
  ghostPlayers : Nat
  aliveGhosts : Nat
  parties : List Party
  ledgerDate : String
  ledger : List (String × LedgerRecord)
  deriving DecidableEq

/-- The initial module-level state: `gameState`/`parties`/`todayPlayers`
literals before the server's listen callback runs. -/
def initialState : ServerState :=
  { status := .waiting, players := [], currentQuestion := 0, questions := [],
    totalParticipants := 0, waitingCount := 0, ghostPlayers := 0, aliveGhosts := 0,
    parties := [], ledgerDate := "", ledger := [] }

/-- `Math.floor(Math.random() * 11) + 95`: the ghost-population draw. -/
def ghostDraw (r : ℚ) : Nat := (⌊r * 11⌋).toNat + 95

/-- Ghost initialization in the listen callback: `ghostPlayers` and
`aliveGhosts` are both set to a fresh draw. -/
def serverInit (r : ℚ) : ServerState :=
  { initialState with ghostPlayers := ghostDraw r, aliveGhosts := ghostDraw r }

/-- `p.alive && !p.leftGame && p.participatedInGame`: the filter used for
alive/remaining participant counts. -/
def isActive (p : PlayerState) : Bool :=
  p.alive && !p.leftGame && p.participatedInGame

/-- The count of connected players with `!p.hasPlayedToday`. -/
def realWaitingCount (st : ServerState) : Nat :=
  (st.players.filter (fun e => !e.2.hasPlayedToday)).length

/-- The fresh player object created on connection. -/
def freshPlayer : PlayerState :=
  { persistentId := none, name := "Anonymous", alive := true, currentAnswer := none,
    correctAnswers := 0, hasPlayedToday := false, todayResult := none,
    partyCode := none, partyDisplayName := none,
    ready := false, leftGame := false, participatedInGame := false }

/-- The `connection` handler's player registration. -/
def connectOp (st : ServerState) (sid : String) : ServerState :=
  { st with players := mset st.players sid freshPlayer }

/-- The `identify` handler: store the persistent id, roll the ledger over if
its date is stale, restore the has-played flag and stored result, and update
the waiting count while waiting. -/
def identifyOp (st : ServerState) (sid pid today : String) : ServerState :=
  match mget st.players sid with
  | none => st
  | some player =>
    let st1 := if st.ledgerDate = today then st
      else { st with ledgerDate := today, ledger := [] }
    let player1 := { player with persistentId := some pid }
    let player2 :=
      match mget st1.ledger pid with
      | some r => { player1 with hasPlayedToday := r.hasPlayed, todayResult := some r.result }
      | none => { player1 with hasPlayedToday := false, todayResult := none }
    let st2 := { st1 with players := mset st1.players sid player2 }
    if !player2.hasPlayedToday && decide (st2.status = GStatus.waiting) then
      { st2 with waitingCount := realWaitingCount st2 + st2.ghostPlayers }
    else st2

/-- The `submitAnswer` handler: the raw client value is stored with no range
validation. -/
def submitAnswerOp (st : ServerState) (sid : String) (answerIndex : Int) : ServerState :=
  match mget st.players sid with
  | none => st
  | some player =>
    if player.alive && decide (st.status = GStatus.playing) && !player.leftGame then
      let player' := { player with currentAnswer := some answerIndex }
      { st with players := mset st.players sid player' }
    else st

/-- The `leaveGame` handler. -/
def leaveGameOp (st : ServerState) (sid : String) : ServerState :=
  match mget st.players sid with
  | none => st
  | some player =>
    let player' := { player with ready := false, alive := false, leftGame := true }
    { st with players := mset st.players sid player' }

/-- The party acknowledgement callback payload:
`{ success, code?, members?, error? }`. -/
structure PartyAck where
  success : Bool
  code : Option String
  members : Option (List PartyMember)
  error : Option String
  deriving DecidableEq

/-- The display-name validation shared by `createParty` and `joinParty`:
`!displayName || displayName.trim().length === 0`, then
`displayName.length > 10`, then the profanity check.  The profanity filter
is an external library, passed as the parameter `isProfane`; a missing or
empty JS payload string is the falsy case `""`. -/
def nameError (isProfane : String → Bool) (displayName : String) : Option String :=
  if displayName = "" ∨ displayName.trim.length = 0 then some "Display name required"
  else if displayName.length > 10 then some "Display name too long (max 10 chars)"
  else if isProfane displayName then some "Display name contains inappropriate language"
  else none

/-- The `createParty` handler.  `freshCode` is the draw of
`generatePartyCode()` (its do-while loop guarantees the drawn code is not in
use); `now` is `Date.now()`. -/
def createPartyOp (isProfane : String → Bool) (st : ServerState) (sid : String)
    (displayName : String) (freshCode : String) (now : Nat) : ServerState × PartyAck :=
  match mget st.players sid with
  | none => (st, ⟨false, none, none, some "Player not found"⟩)
  | some player =>
    match nameError isProfane displayName with
    | some e => (st, ⟨false, none, none, some e⟩)
    | none =>
      let party : Party := ⟨freshCode, [⟨sid, displayName.trim, .waiting, none⟩], now⟩
      let player' := { player with partyCode := some freshCode,
                                   partyDisplayName := some displayName.trim }
      let st' := { st with parties := pset st.parties party,
                           players := mset st.players sid player' }
      (st', ⟨true, some freshCode, some party.members, none⟩)

/-- The `joinParty` handler. -/
def joinPartyOp (isProfane : String → Bool) (st : ServerState) (sid : String)
    (codeArg displayName : String) : ServerState × PartyAck :=
  match mget st.players sid with
  | none => (st, ⟨false, none, none, some "Player not found"⟩)
  | some player =>
    match nameError isProfane displayName with
    | some e => (st, ⟨false, none, none, some e⟩)
    | none =>
      if codeArg = "" then (st, ⟨false, none, none, some "Invalid party code"⟩)
      else
        match pget st.parties codeArg.toUpper with
        | none => (st, ⟨false, none, none, some "Invalid party code"⟩)
        | some party =>
          if party.members.length ≥ 5 then
            (st, ⟨false, none, none, some "Party is full (max 5 members)"⟩)
          else if party.members.any (fun m => m.socketId == sid) then
            (st, ⟨false, none, none, some "Already in this party"⟩)
          else
            let party' := { party with
              members := party.members ++ [⟨sid, displayName.trim, .waiting, none⟩] }
            let player' := { player with partyCode := some codeArg.toUpper,
                                         partyDisplayName := some displayName.trim }
            let st' := { st with parties := pset st.parties party',
                                 players := mset st.players sid player' }
            (st', ⟨true, some codeArg.toUpper, some party'.members, none⟩)

/-- The `leaveParty` handler. -/
def leavePartyOp (st : ServerState) (sid : String) : ServerState :=
  match mget st.players sid with
  | none => st
  | some player =>
    match player.partyCode with
    | none => st
    | some partyCode =>
      let parties :=
        match pget st.parties partyCode with
        | none => st.parties
        | some party =>
          let remaining := party.members.filter (fun m => m.socketId != sid)
          if remaining.length = 0 then pdel st.parties partyCode
          else pset st.parties { party with members := remaining }
      let player' := { player with partyCode := none, partyDisplayName := none }
      { st with parties := parties, players := mset st.players sid player' }

/-- The `disconnect` handler: party removal, then `players.delete`, then the
waiting-count refresh. -/
def disconnectOp (st : ServerState) (sid : String) : ServerState :=
  let st1 : ServerState :=
    match mget st.players sid with
    | none => st
    | some player =>
      match player.partyCode with
      | none => st
      | some partyCode =>
        match pget st.parties partyCode with
        | none => st
        | some party =>
          let remaining := party.members.filter (fun m => m.socketId != sid)
          if remaining.length = 0 then { st with parties := pdel st.parties partyCode }
          else { st with parties := pset st.parties { party with members := remaining } }
  let st2 := { st1 with players := mdel st1.players sid }
  if st2.status = GStatus.waiting then
    { st2 with waitingCount := realWaitingCount st2 + st2.ghostPlayers }
  else st2

/-- `party.members.find(m => m.socketId === sid)` followed by a mutation of
the found member: update the first member with the given socket id. -/
def setMemberStatus (ms : List PartyMember) (sid : String)
    (f : PartyMember → PartyMember) : List PartyMember :=
  match ms with
  | [] => []
  | m :: rest => if m.socketId = sid then f m :: rest else m :: setMemberStatus rest sid f

/-- Output of the participant-marking loop of `startGame`. -/
structure StartOut where
  players : List (String × PlayerState)
  parties : List Party
  count : Nat

/-- The `startGame` loop over `gameState.players`: every connected player with
`!hasPlayedToday && !leftGame` is marked alive and participating, counted,
and its party member status set to alive. -/
def startFold : List (String × PlayerState) → List Party → StartOut
  | [], ps => ⟨[], ps, 0⟩
  | (sid, p) :: rest, ps =>
    if !p.hasPlayedToday && !p.leftGame then
      let p' := { p with alive := true, correctAnswers := 0, currentAnswer := none,
                         participatedInGame := true, hasPlayedToday := true }
      let ps1 :=
        match p.partyCode with
        | some c =>
          match pget ps c with
          | some party =>
            pset ps { party with
              members := setMemberStatus party.members sid (fun m => { m with status := .alive }) }
          | none => ps
        | none => ps
      let r := startFold rest ps1
      ⟨(sid, p') :: r.players, r.parties, r.count + 1⟩
    else
      let r := startFold rest ps
      ⟨(sid, p) :: r.players, r.parties, r.count⟩

/-- `startGame`: set status (through `'starting'`, the countdown, and then
`'playing'`), install today's questions, reset the question cursor, snapshot
participants and add the ghost population to the participant total. -/
def startGameStep (st : ServerState) (qs : List Question) : ServerState :=
  let r := startFold st.players st.parties
  { st with
    status := .playing
    waitingCount := 0
    questions := qs
    currentQuestion := 0
    players := r.players
    parties := r.parties
    totalParticipants := r.count + st.ghostPlayers }

/-- `question.answers.indexOf(question.correct)`: `-1` when absent. -/
def idxOf (l : List String) (x : String) : Int :=
  match l with
  | [] => -1
  | a :: rest =>
    if a = x then 0
    else
      let r := idxOf rest x
      if r = -1 then -1 else r + 1

/-- `answerCounts[k]++` on a JS array indexed by an arbitrary integer: JS
arrays accept any integer property, so counts are a total function on `Int`. -/
def bump (counts : Int → Nat) (k : Int) : Int → Nat :=
  fun j => if j = k then counts k + 1 else counts j

/-- `answerCounts[k] += n`. -/
def bumpBy (counts : Int → Nat) (k : Int) (n : Nat) : Int → Nat :=
  fun j => if j = k then counts k + n else counts j

/-- Output of the first `processAnswers` loop over players. -/
structure PassOut where
  players : List (String × PlayerState)
  counts : Int → Nat
  total : Nat
  eliminated : List String
  survivors : List String

/-- The first `processAnswers` loop: count each active participant's vote
(if any), then either credit a survivor or eliminate. -/
def answerPass (ci : Int) (counts : Int → Nat) (total : Nat) :
    List (String × PlayerState) → PassOut
  | [] => ⟨[], counts, total, [], []⟩
  | (sid, p) :: rest =>
    if isActive p then
      let counted : (Int → Nat) × Nat :=
        match p.currentAnswer with
        | some a => (bump counts a, total + 1)
        | none => (counts, total)
      if p.currentAnswer = some ci then
        let p' := { p with correctAnswers := p.correctAnswers + 1 }
        let r := answerPass ci counted.1 counted.2 rest
        ⟨(sid, p') :: r.players, r.counts, r.total, r.eliminated, sid :: r.survivors⟩
      else
        let p' := { p with alive := false }
        let r := answerPass ci counted.1 counted.2 rest
        ⟨(sid, p') :: r.players, r.counts, r.total, sid :: r.eliminated, r.survivors⟩
    else
      let r := answerPass ci counts total rest
      ⟨(sid, p) :: r.players, r.counts, r.total, r.eliminated, r.survivors⟩

/-- The ghost pass-rate: `questionNumber <= 3` gives
`Math.random() * 0.05 + 0.90`, `<= 6` gives `* 0.10 + 0.65`, else
`* 0.20 + 0.20`; `r` is the `Math.random()` draw. -/
def correctRate (questionNumber : Nat) (r : ℚ) : ℚ :=
  if questionNumber ≤ 3 then r * (5 / 100) + 90 / 100
  else if questionNumber ≤ 6 then r * (10 / 100) + 65 / 100
  else r * (20 / 100) + 20 / 100

/-- The loop distributing wrong ghost votes: each of the `n` remaining wrong
ghosts picks `wrongAnswers[Math.floor(Math.random() * wrongAnswers.length)]`;
the i-th iteration uses the draw `rand i`.  (For a draw in `[0,1)` the index
is always in range; `getD _ 0` is never the fallback then.) -/
def ghostWrongLoop (wrongAnswers : List Int) (rand : Nat → ℚ) :
    Nat → Nat → (Int → Nat) → Nat → ((Int → Nat) × Nat)
  | _, 0, counts, total => (counts, total)
  | i, Nat.succ k, counts, total =>
    let idx : Nat := (⌊rand i * (wrongAnswers.length : ℚ)⌋).toNat
    let pick := wrongAnswers.getD idx 0
    ghostWrongLoop wrongAnswers rand (i + 1) k (bump counts pick) (total + 1)

/-- `Math.round((count / totalAnswers) * 100)` for naturals:
`floor(100 * c / t + 1 / 2) = (200 * c + t) / (2 * t)` in natural division. -/
def pctRound (c t : Nat) : Nat := (200 * c + t) / (2 * t)

/-- The placeholder for an out-of-range question lookup
(`gameState.questions[i]` is `undefined` out of bounds). -/
def noQuestion : Question := ⟨"", "", [], "", ""⟩

/-- Everything `processAnswers` produces: the successor state plus the
payloads of the `results` and `eliminated` events. -/
structure RoundOut where
  state : ServerState
  eliminated : List String
  survivors : List String
  counts : Int → Nat
  totalAnswers : Nat
  answerPercentages : List Nat
  ghostsEliminated : Nat
  correctIndex : Int
  alivePlayersCount : Nat
  elimEvents : List (String × StoredResult)
  endsGame : Bool

/-- The per-eliminated-player loop of `processAnswers`: write the ledger
record (for identified players) and mark the party member eliminated. -/
def elimWrites (st : ServerState) (ids : List String)
    (gameNumber elimPos questionNumber : Nat) : ServerState :=
  match ids with
  | [] => st
  | pid :: rest =>
    let st1 : ServerState :=
      match mget st.players pid with
      | none => st
      | some player =>
        let stA : ServerState :=
          match player.persistentId with
          | some persId =>
            let res : StoredResult :=
              ⟨elimPos, st.totalParticipants, player.correctAnswers, gameNumber⟩
            let player' := { player with hasPlayedToday := true, todayResult := some res }
            { st with ledger := mset st.ledger persId ⟨true, res⟩,
                      players := mset st.players pid player' }
          | none => st
        match player.partyCode with
        | some c =>
          match pget stA.parties c with
          | some party =>
            { stA with parties := pset stA.parties { party with
                members := setMemberStatus party.members pid (fun m =>
                  { m with status := .eliminated,
                           eliminatedOnQuestion := some questionNumber }) } }
          | none => stA
        | none => stA
    elimWrites st1 rest gameNumber elimPos questionNumber

/-- The per-survivor loop of `processAnswers`: mark the party member alive. -/
def survivorWrites (st : ServerState) (ids : List String) : ServerState :=
  match ids with
  | [] => st
  | pid :: rest =>
    let st1 : ServerState :=
      match mget st.players pid with
      | none => st
      | some player =>
        match player.partyCode with
        | some c =>
          match pget st.parties c with
          | some party =>
            { st with parties := pset st.parties { party with
                members := setMemberStatus party.members pid (fun m =>
                  { m with status := .alive }) } }
          | none => st
        | none => st
    survivorWrites st1 rest

/-- `gameState.questions[gameState.currentQuestion]`. -/
def roundQuestion (st : ServerState) : Question :=
  st.questions.getD st.currentQuestion noQuestion

/-- `question.answers.indexOf(question.correct)` for the current round. -/
def correctIndexOf (st : ServerState) : Int :=
  idxOf (roundQuestion st).answers (roundQuestion st).correct

/-- The first `processAnswers` loop for the current round, starting from the
literal `[0, 0, 0, 0]` counts and `totalAnswers = 0`. -/
def roundPass (st : ServerState) : PassOut :=
  answerPass (correctIndexOf st) (fun _ => 0) 0 st.players

/-- `Math.floor(gameState.aliveGhosts * correctRate)` for this round's draw. -/
def ghostsCorrect (st : ServerState) (rand : Nat → ℚ) : Nat :=
  (⌊(st.aliveGhosts : ℚ) * correctRate (st.currentQuestion + 1) (rand 0)⌋).toNat

/-- `gameState.aliveGhosts - ghostsAnsweringCorrect`. -/
def ghostsWrong (st : ServerState) (rand : Nat → ℚ) : Nat :=
  st.aliveGhosts - ghostsCorrect st rand

/-- `[0, 1, 2, 3].filter(i => i !== correctIndex)`. -/
def wrongAnswerIdxs (st : ServerState) : List Int :=
  ([0, 1, 2, 3] : List Int).filter (fun i => i != correctIndexOf st)

/-- The answer counts and total after the ghost votes: the correct-ghost
block vote followed by the wrong-ghost distribution loop. -/
def roundVotes (st : ServerState) (rand : Nat → ℚ) : (Int → Nat) × Nat :=
  ghostWrongLoop (wrongAnswerIdxs st) rand 1 (ghostsWrong st rand)
    (bumpBy (roundPass st).counts (correctIndexOf st) (ghostsCorrect st rand))
    ((roundPass st).total + ghostsCorrect st rand)

/-- `answerCounts.map(count => totalAnswers > 0 ? Math.round((count / totalAnswers) * 100) : 0)`
over the four base entries. -/
def roundPercentages (st : ServerState) (rand : Nat → ℚ) : List Nat :=
  (List.range 4).map (fun i =>
    if (roundVotes st rand).2 > 0 then pctRound ((roundVotes st rand).1 (i : Int)) (roundVotes st rand).2
    else 0)

/-- `alivePlayers.length`: active participants remaining after this round's
eliminations. -/
def alivePlayersAfter (st : ServerState) : Nat :=
  ((roundPass st).players.filter (fun e => isActive e.2)).length

/-- The tied ledger position of this round's eliminated players:
`alivePlayers.length + eliminated.length`. -/
def elimPosOf (st : ServerState) : Nat :=
  alivePlayersAfter st + (roundPass st).eliminated.length

/-- `processAnswers`: freeze and count answers, eliminate wrong or absent
answerers, run ghost attrition and ghost voting, compute the answer
percentages, write eliminated players' ledger records, mirror party
statuses, emit `results`/`eliminated` payloads, and either advance the
question cursor or flag the end of the game. -/
def processAnswers (st : ServerState) (rand : Nat → ℚ) (gameNumber : Nat) : RoundOut :=
  let pass := roundPass st
  let st1 := { st with players := pass.players, aliveGhosts := ghostsCorrect st rand }
  let st2 := elimWrites st1 pass.eliminated gameNumber (elimPosOf st) (st.currentQuestion + 1)
  let st3 := survivorWrites st2 pass.survivors
  let elimEvents := pass.eliminated.filterMap (fun pid =>
    match mget st3.players pid with
    | some p =>
      if p.leftGame then none
      else some (pid,
        (⟨alivePlayersAfter st + st3.aliveGhosts + pass.eliminated.length + ghostsWrong st rand,
          st3.totalParticipants, p.correctAnswers, gameNumber⟩ : StoredResult))
    | none => none)
  let ends : Bool :=
    decide (9 ≤ st.currentQuestion) || decide (alivePlayersAfter st + st3.aliveGhosts ≤ 1)
  let st4 := if ends then st3 else { st3 with currentQuestion := st3.currentQuestion + 1 }
  ⟨st4, pass.eliminated, pass.survivors, (roundVotes st rand).1, (roundVotes st rand).2,
   roundPercentages st rand, ghostsWrong st rand, correctIndexOf st, alivePlayersAfter st,
   elimEvents, ends⟩

/-- A leaderboard row. -/
structure LeaderEntry where
  position : Nat
  name : String
  correct : Nat
  alive : Bool
  deriving DecidableEq

/-- The `gameOver` payload. -/
structure EndOut where
  winners : List (String × String × Nat)
  leaderboard : List LeaderEntry
  gameNumber : Nat
  totalParticipants : Nat
  finalQuestion : Nat

/-- The winner loop of `endGame`: every still-active participant gets a
position-1 ledger record (if identified) and a winners entry. -/
def winnersFold (gameNumber totalParticipants : Nat) :
    List (String × PlayerState) → List (String × LedgerRecord) →
    (List (String × PlayerState) × List (String × LedgerRecord) × List (String × String × Nat))
  | [], ledger => ([], ledger, [])
  | (sid, p) :: rest, ledger =>
    if isActive p then
      match p.persistentId with
      | some persId =>
        let res : StoredResult := ⟨1, totalParticipants, p.correctAnswers, gameNumber⟩
        let p' := { p with hasPlayedToday := true, todayResult := some res }
        let r := winnersFold gameNumber totalParticipants rest (mset ledger persId ⟨true, res⟩)
        ((sid, p') :: r.1, r.2.1, (sid, p.name, p.correctAnswers) :: r.2.2)
      | none =>
        let r := winnersFold gameNumber totalParticipants rest ledger
        ((sid, p) :: r.1, r.2.1, (sid, p.name, p.correctAnswers) :: r.2.2)
    else
      let r := winnersFold gameNumber totalParticipants rest ledger
      ((sid, p) :: r.1, r.2.1, r.2.2)

/-- The JS leaderboard comparator, as an a-sorts-before-b Boolean relation:
descending correct count, ties broken by alive status. -/
def leaderLe (a b : PlayerState) : Bool :=
  decide (b.correctAnswers < a.correctAnswers) ||
    (decide (a.correctAnswers = b.correctAnswers) && (!b.alive || a.alive))

/-- `endGame`: set status to finished, record winners (position 1), and
compute the leaderboard (top 10 over the participants of this game). -/
def endGameStep (st : ServerState) (gameNumber : Nat) : ServerState × EndOut :=
  let w := winnersFold gameNumber st.totalParticipants st.players st.ledger
  let participating := (w.1.map Prod.snd).filter (fun p => p.participatedInGame)
  let sorted := participating.mergeSort leaderLe
  let leaderboard := (sorted.take 10).enum.map (fun e =>
    (⟨e.1 + 1, e.2.name, e.2.correctAnswers, e.2.alive⟩ : LeaderEntry))
  ({ st with status := .finished, players := w.1, ledger := w.2.1 },
   ⟨w.2.2, leaderboard, gameNumber, st.totalParticipants, st.currentQuestion + 1⟩)

/-- `resetGame`: back to waiting, resample the ghost population (`r` is the
`Math.random()` draw behind the 95..105 ghost count), clear every party,
reset each session's per-game fields (has-played-today and the stored
result persist), and recompute the waiting count. -/
def resetGameStep (st : ServerState) (r : ℚ) : ServerState :=
  let ghostCount := ghostDraw r
  let players := st.players.map (fun e => (e.1,
    { e.2 with ready := false, alive := true, correctAnswers := 0,
               participatedInGame := false, partyCode := none, partyDisplayName := none }))
  let st1 := { st with
    status := .waiting
    currentQuestion := 0
    totalParticipants := 0
    ghostPlayers := ghostCount
    aliveGhosts := ghostCount
    parties := []
    players := players }
  { st1 with waitingCount := realWaitingCount st1 + st1.ghostPlayers }

/-- The answer-slot reset at the top of `nextQuestion`. -/
def nextQuestionClear (st : ServerState) : ServerState :=
  { st with players := st.players.map (fun e => (e.1, { e.2 with currentAnswer := none })) }

/-- One round's worth of client input: the answer submissions that land
before the timer hits zero (in arrival order), and the `Math.random()`
stream consumed by `processAnswers`. -/
structure RoundInput where
  subs : List (String × Int)
  rand : Nat → ℚ

/-- The submissions landing within one round's answer window, in order. -/
def submitAll (st : ServerState) (subs : List (String × Int)) : ServerState :=
  subs.foldl (fun s sub => submitAnswerOp s sub.1 sub.2) st

/-- One full round of the playing loop: `nextQuestion`'s guard and answer
reset, the submissions of the 15-second window, then `processAnswers`,
followed by `endGame` when the terminal condition holds. -/
def roundApply (st : ServerState) (ri : RoundInput) (gameNumber : Nat) : ServerState :=
  if st.questions.length ≤ st.currentQuestion then (endGameStep st gameNumber).1
  else if (processAnswers (submitAll (nextQuestionClear st) ri.subs) ri.rand gameNumber).endsGame
    then (endGameStep
      (processAnswers (submitAll (nextQuestionClear st) ri.subs) ri.rand gameNumber).state
      gameNumber).1
  else (processAnswers (submitAll (nextQuestionClear st) ri.subs) ri.rand gameNumber).state

/-- The round loop: rounds happen only while the game is in the playing
state (once `endGame` runs, the timer chain stops). -/
def runRounds (gameNumber : Nat) (st : ServerState) : List RoundInput → ServerState
  | [] => st
  | ri :: rest =>
    if st.status = GStatus.playing then runRounds gameNumber (roundApply st ri gameNumber) rest
    else st

/-- A state transformation that can touch only the players, the parties and
the ledger, leaving the rest of `gameState` as it was. -/
def OnlyPPL (s t : ServerState) : Prop :=
  t = { s with players := t.players, parties := t.parties, ledger := t.ledger }

/-- A state transformation that can touch only the players map. -/
def SameExceptPlayers (s t : ServerState) : Prop :=
  t = { s with players := t.players }

/-- Two different sessions never carry the same persistent identity: along
the session list, an identified entry's id recurs in no later entry. -/
@[reducible] def DistinctIds (players : List (String × PlayerState)) : Prop :=
  players.Pairwise (fun a b =>
    a.2.persistentId = none ∨ a.2.persistentId ≠ b.2.persistentId)

/-- Session flags are consistent with the ledger: a session identified with a
recorded identity carries `hasPlayedToday = true` (what `identify`
establishes on reconnection). -/
def LedgerConsistent (st : ServerState) : Prop :=
  ∀ sid p pid, mget st.players sid = some p → p.persistentId = some pid →
    (mget st.ledger pid).isSome → p.hasPlayedToday = true

/-- Every identity holding a ledger record has no live participating
session: the invariant behind the write-once behaviour of the daily ledger. -/
def RecordedInactive (st : ServerState) : Prop :=
  ∀ pid, (mget st.ledger pid).isSome →
    ∀ sid p, mget st.players sid = some p → p.persistentId = some pid → isActive p = false

/-- The party-registry invariant: every member of every party is a connected
session whose stored party code is that party's code, and party codes are
pairwise distinct. -/
def PartyInv (st : ServerState) : Prop :=
  (∀ pt, pt ∈ st.parties → ∀ m, m ∈ pt.members →
    ∃ p, mget st.players m.socketId = some p ∧ p.partyCode = some pt.code) ∧
  st.parties.Pairwise (fun a b => a.code ≠ b.code)

/-- The currently active parties whose member list contains the session. -/
def partiesWith (st : ServerState) (sid : String) : List Party :=
  st.parties.filter (fun pt => pt.members.any (fun m => m.socketId == sid))

/-- The states reachable from server startup through the socket handlers and
the game lifecycle; every `Math.random()` draw is constrained to `[0,1)`. -/
inductive Reach : ServerState → Prop
  | init (r : ℚ) (h0 : 0 ≤ r) (h1 : r < 1) : Reach (serverInit r)
  | connect {st : ServerState} (sid : String) : Reach st → Reach (connectOp st sid)
  | identify {st : ServerState} (sid pid today : String) :
      Reach st → Reach (identifyOp st sid pid today)
  | submit {st : ServerState} (sid : String) (a : Int) :
      Reach st → Reach (submitAnswerOp st sid a)
  | leaveGame {st : ServerState} (sid : String) : Reach st → Reach (leaveGameOp st sid)
  | createParty {st : ServerState} (f : String → Bool) (sid dn code : String) (now : Nat) :
      Reach st → Reach (createPartyOp f st sid dn code now).1
  | joinParty {st : ServerState} (f : String → Bool) (sid code dn : String) :
      Reach st → Reach (joinPartyOp f st sid code dn).1
  | leaveParty {st : ServerState} (sid : String) : Reach st → Reach (leavePartyOp st sid)
  | disconnect {st : ServerState} (sid : String) : Reach st → Reach (disconnectOp st sid)
  | startGame {st : ServerState} (qs : List Question) : Reach st → Reach (startGameStep st qs)
  | round {st : ServerState} (ri : RoundInput) (gn : Nat)
      (h0 : ∀ n, 0 ≤ ri.rand n) (h1 : ∀ n, ri.rand n < 1) :
      Reach st → Reach (roundApply st ri gn)
  | endGame {st : ServerState} (gn : Nat) : Reach st → Reach (endGameStep st gn).1
  | reset {st : ServerState} (r : ℚ) (h0 : 0 ≤ r) (h1 : r < 1) :
      Reach st → Reach (resetGameStep st r)

/-- The ghost counters are untouched by an operation. -/
def SameGhosts (s t : ServerState) : Prop :=
  t.aliveGhosts = s.aliveGhosts ∧ t.ghostPlayers = s.ghostPlayers

/-- The keys of an association list are pairwise distinct (true of every
list built through `mset` from `[]`, mirroring a JS `Map`). -/
@[reducible] def NodupKeys {α : Type} (l : List (String × α)) : Prop :=
  (l.map Prod.fst).Nodup

/-- The persistent-id column of the players map, in session order: the game
machinery never changes it, which carries identity distinctness through a
game. -/
def pids (l : List (String × PlayerState)) : List (Option String) :=
  l.map (fun e => e.2.persistentId)

/-- How a game step may transform the players map: the session keys and
their order are fixed, every persistent id is fixed, and no inactive
session becomes active. -/
def StageOk (l l' : List (String × PlayerState)) : Prop :=
  l'.map Prod.fst = l.map Prod.fst ∧ pids l' = pids l ∧
  (∀ sid p', mget l' sid = some p' → isActive p' = true →
    ∃ p, mget l sid = some p ∧ isActive p = true)

/-- How the counting pass of `processAnswers` transforms each player (the
transformation depends only on the player itself). -/
def passTransform (ci : Int) (p : PlayerState) : PlayerState :=
  if isActive p then
    (if p.currentAnswer = some ci then { p with correctAnswers := p.correctAnswers + 1 }
     else { p with alive := false })
  else p

/-- How the winner loop of `endGame` transforms each player. -/
def winTransform (gameNumber totalParticipants : Nat) (p : PlayerState) : PlayerState :=
  if isActive p then
    match p.persistentId with
    | some _ =>
      { p with hasPlayedToday := true,
               todayResult := some ⟨1, totalParticipants, p.correctAnswers, gameNumber⟩ }
    | none => p
  else p

/-- How the participant-marking loop of `startGame` transforms each player. -/
def startTransform (p : PlayerState) : PlayerState :=
  if !p.hasPlayedToday && !p.leftGame then
    { p with alive := true, correctAnswers := 0, currentAnswer := none,
             participatedInGame := true, hasPlayedToday := true }
  else p

/-- The whole-game ledger invariant carried through the round loop: session
keys and ledger keys are duplicate-free, identities are distinct across
sessions, and while the game is in play every recorded identity has no
active session (so no later round can write over its record). -/
def RoundInv (st : ServerState) : Prop :=
  NodupKeys st.players ∧ NodupKeys st.ledger ∧ DistinctIds st.players ∧
  (st.status = GStatus.playing → RecordedInactive st)

/-! ### Concrete fixtures used by witnesses and counterexamples -/

/-- A fixed question whose correct answer sits at index 0. -/
def q0 : Question := ⟨"q", "A", ["A", "B", "C", "D"], "EASY", "General"⟩

/-- A daily set of ten copies of `q0`. -/
def qs10 : List Question := List.replicate 10 q0

/-- A participating player holding a given answer slot. -/
def mkP (a : Option Int) : PlayerState :=
  { freshPlayer with participatedInGame := true, hasPlayedToday := true, currentAnswer := a }

/-- A participating, identified player holding a given answer slot. -/
def mkPid (pid : String) (a : Option Int) : PlayerState :=
  { mkP a with persistentId := some pid }

/-- A trivial profanity filter for concrete runs. -/
def noProf : String → Bool := fun _ => false

/-- A `Math.random()` stream that always draws 0. -/
def zeroRand : Nat → ℚ := fun _ => 0

/-- Concrete round for C1's witness: question number 4 in play, two active
participants (one answering correctly, one wrong), no ghosts alive. -/
def stRound4 : ServerState :=
  { initialState with
    status := .playing
    players := [("a", mkP (some 0)), ("b", mkP (some 1))]
    questions := qs10
    currentQuestion := 3
    totalParticipants := 2 }

/-- Concrete round for C2: two correct answers, three wrong (one of the
eliminated identified as `idC`), ten ghosts alive. -/
def stGhostRound : ServerState :=
  { initialState with
    status := .playing
    players := [("A", mkP (some 0)), ("B", mkP (some 0)), ("C", mkPid "idC" (some 1)),
                ("D", mkP (some 1)), ("E", mkP (some 1))]
    questions := qs10
    totalParticipants := 105
    ghostPlayers := 100
    aliveGhosts := 10 }

/-- Concrete round for C3: eight voters distributed `[1, 1, 3, 3]` over the
four options, no ghosts. -/
def stEighths : ServerState :=
  { initialState with
    status := .playing
    players := [("p0", mkP (some 0)), ("p1", mkP (some 1)), ("p2", mkP (some 2)),
                ("p3", mkP (some 2)), ("p4", mkP (some 2)), ("p5", mkP (some 3)),
                ("p6", mkP (some 3)), ("p7", mkP (some 3))]
    questions := qs10
    totalParticipants := 8 }

/-- Concrete game for C10: a single active participant, no ghosts. -/
def stSolo : ServerState :=
  { initialState with
    status := .playing
    players := [("s1", mkP none)]
    questions := qs10
    totalParticipants := 1 }

/-- C7's trace: one session creates a party... -/
def stOneParty : ServerState :=
  (createPartyOp noProf (connectOp initialState "s") "s" "alice" "AAAAAA" 0).1

/-- ... and then creates a second one without leaving the first. -/
def stTwoParties : ServerState :=
  (createPartyOp noProf stOneParty "s" "alice" "BBBBBB" 0).1

/-- C8's fixture: six connected sessions; the first creates a party and four
more join it, filling it to its five-member capacity. -/
def stFiveParty : ServerState :=
  let s0 := connectOp (connectOp (connectOp (connectOp (connectOp
    (connectOp initialState "p1") "p2") "p3") "p4") "p5") "p6"
  let s1 := (createPartyOp noProf s0 "p1" "n1" "AAAAAA" 0).1
  let s2 := (joinPartyOp noProf s1 "p2" "AAAAAA" "n2").1
  let s3 := (joinPartyOp noProf s2 "p3" "AAAAAA" "n3").1
  let s4 := (joinPartyOp noProf s3 "p4" "AAAAAA" "n4").1
  (joinPartyOp noProf s4 "p5" "AAAAAA" "n5").1

/-- C4's trace, lobby: two connected sessions both identified with the same
persistent identity `"X"` on day `"d"`. -/
def stSharedId : ServerState :=
  identifyOp (identifyOp (connectOp (connectOp initialState "s1") "s2") "s1" "X" "d") "s2" "X" "d"

/-- C4's trace, one round in: the game starts with both sessions, and in
round one only `s2` answers (correctly); `s1` is eliminated and its
record for `"X"` is written. -/
def roundOneInput : RoundInput := ⟨[("s2", 0)], zeroRand⟩

/-- C4's trace: the state at the moment the round-one ledger write lands
(before the terminal `endGame` of the same round fires). -/
def stAfterElim : ServerState :=
  (processAnswers (submitAll (nextQuestionClear (startGameStep stSharedId qs10)) roundOneInput.subs)
    roundOneInput.rand 1).state

/-- C4's trace: the state after the full round (whose terminal condition
holds, so `endGame` has written the winner result over the same identity). -/
def stAfterRound : ServerState :=
  runRounds 1 (startGameStep stSharedId qs10) [roundOneInput]

/-- C4's witness trace: two sessions identified with the distinct
identities `"X1"` and `"X2"` on day `"d"`. -/
def stTwoIds : ServerState :=
  identifyOp (identifyOp (connectOp (connectOp initialState "s1") "s2") "s1" "X1" "d")
    "s2" "X2" "d"

/-! ### Association-list lemmas -/

theorem mget_mset_self {α : Type} (m : List (String × α)) (k : String) (v : α) :
    mget (mset m k v) k = some v := by
  induction m with
  | nil => simp [mset, mget]
  | cons e rest ih =>
    obtain ⟨k', v'⟩ := e
    by_cases h : k' = k <;> simp [mset, mget, h, ih]

theorem mget_mset_ne {α : Type} (m : List (String × α)) (k : String) (v : α)
    (k' : String) (h : k' ≠ k) : mget (mset m k v) k' = mget m k' := by
  induction m with
  | nil => simp [mset, mget, Ne.symm h]
  | cons e rest ih =>
    obtain ⟨k0, v0⟩ := e
    by_cases h0 : k0 = k
    · subst h0
      simp [mset, mget, Ne.symm h]
    · simp [mset, mget, h0, ih]

theorem mget_mdel_ne {α : Type} (m : List (String × α)) (k k' : String) (h : k' ≠ k) :
    mget (mdel m k) k' = mget m k' := by
  induction m with
  | nil => simp [mdel]
  | cons e rest ih =>
    obtain ⟨k0, v0⟩ := e
    by_cases h0 : k0 = k
    · subst h0
      simp [mdel, mget, Ne.symm h]
    · simp [mdel, mget, h0, ih]

theorem mget_map {α β : Type} (f : α → β) (m : List (String × α)) (k : String) :
    mget (m.map (fun e => (e.1, f e.2))) k = (mget m k).map f := by
  induction m with
  | nil => rfl
  | cons e rest ih =>
    obtain ⟨k0, v0⟩ := e
    by_cases h : k0 = k <;> simp [mget, h, ih]

theorem pget_pset_self (ps : List Party) (pt : Party) : pget (pset ps pt) pt.code = some pt := by
  induction ps with
  | nil => simp [pset, pget]
  | cons q rest ih =>
    by_cases h : q.code = pt.code <;> simp [pset, pget, h, ih]

theorem pget_pset_ne (ps : List Party) (pt : Party) (c : String) (h : c ≠ pt.code) :
    pget (pset ps pt) c = pget ps c := by
  induction ps with
  | nil => simp [pset, pget, Ne.symm h]
  | cons q rest ih =>
    by_cases h0 : q.code = pt.code
    · rw [pset]
      simp only [h0, if_pos]
      rw [pget, pget]
      simp [h0, Ne.symm h]
    · simp [pset, pget, h0, ih]

theorem pget_pdel_ne (ps : List Party) (c c' : String) (h : c' ≠ c) :
    pget (pdel ps c) c' = pget ps c' := by
  induction ps with
  | nil => simp [pdel]
  | cons q rest ih =>
    by_cases h0 : q.code = c
    · rw [pdel]
      simp only [h0, if_pos]
      rw [pget]
      have : ¬ q.code = c' := by rw [h0]; exact Ne.symm h
      simp [this]
    · simp [pdel, pget, h0, ih]

theorem pget_none_not_mem (ps : List Party) (c : String) (h : pget ps c = none) :
    ∀ pt, pt ∈ ps → pt.code ≠ c := by
  induction ps with
  | nil => simp
  | cons q rest ih =>
    intro pt hmem
    rw [pget] at h
    by_cases h0 : q.code = c
    · simp [h0] at h
    · rcases List.mem_cons.mp hmem with h1 | h1
      · subst h1; exact h0
      · exact ih (by simpa [h0] using h) pt h1

/-! ### Frame lemmas: which state components each operation can touch -/

theorem OnlyPPL.refl (s : ServerState) : OnlyPPL s s := rfl

theorem OnlyPPL.trans {s t u : ServerState} (h1 : OnlyPPL s t) (h2 : OnlyPPL t u) :
    OnlyPPL s u := by
  unfold OnlyPPL at *
  rw [h2, h1]

theorem SameExceptPlayers.toOnlyPPL {s t : ServerState} (h : SameExceptPlayers s t) :
    OnlyPPL s t := by
  unfold SameExceptPlayers at h
  unfold OnlyPPL
  rw [h]

theorem elimWrites_shape (ids : List String) : ∀ st gn pos qn,
    OnlyPPL st (elimWrites st ids gn pos qn) := by
  induction ids with
  | nil => intro st gn pos qn; exact OnlyPPL.refl st
  | cons pid rest ih =>
    intro st gn pos qn
    rw [elimWrites]
    refine OnlyPPL.trans ?_ (ih _ gn pos qn)
    cases mget st.players pid with
    | none => exact OnlyPPL.refl st
    | some player =>
      dsimp only
      cases hpid : player.persistentId <;> cases hpc : player.partyCode <;>
        simp only [hpid, hpc] <;>
        first
          | rfl
          | (split <;> rfl)

theorem survivorWrites_shape (ids : List String) : ∀ st,
    OnlyPPL st (survivorWrites st ids) := by
  induction ids with
  | nil => intro st; exact OnlyPPL.refl st
  | cons pid rest ih =>
    intro st
    rw [survivorWrites]
    refine OnlyPPL.trans ?_ (ih _)
    cases mget st.players pid with
    | none => exact OnlyPPL.refl st
    | some player =>
      dsimp only
      cases hpc : player.partyCode <;> simp only [hpc] <;>
        first
          | rfl
          | (split <;> rfl)

theorem submitAnswerOp_shape (st : ServerState) (sid : String) (a : Int) :
    SameExceptPlayers st (submitAnswerOp st sid a) := by
  unfold submitAnswerOp SameExceptPlayers
  cases mget st.players sid with
  | none => rfl
  | some player =>
    dsimp only
    split <;> rfl

theorem nextQuestionClear_shape (st : ServerState) :
    SameExceptPlayers st (nextQuestionClear st) := rfl

theorem submitAll_shape (subs : List (String × Int)) : ∀ st,
    SameExceptPlayers st (submitAll st subs) := by
  induction subs with
  | nil => intro st; rfl
  | cons sub rest ih =>
    intro st
    have h1 := submitAnswerOp_shape st sub.1 sub.2
    have h2 := ih (submitAnswerOp st sub.1 sub.2)
    show SameExceptPlayers st (submitAll (submitAnswerOp st sub.1 sub.2) rest)
    unfold SameExceptPlayers at *
    rw [h2, h1]

theorem OnlyPPL.eq {s t : ServerState} (h : OnlyPPL s t) :
    t = { s with players := t.players, parties := t.parties, ledger := t.ledger } := h

theorem SameExceptPlayers.seq {s t : ServerState} (h : SameExceptPlayers s t) :
    t = { s with players := t.players } := h

theorem OnlyPPL.pstatus {s t : ServerState} (h : OnlyPPL s t) : t.status = s.status := by
  rw [h.eq]

theorem OnlyPPL.pcq {s t : ServerState} (h : OnlyPPL s t) :
    t.currentQuestion = s.currentQuestion := by
  rw [h.eq]

theorem OnlyPPL.pquestions {s t : ServerState} (h : OnlyPPL s t) : t.questions = s.questions := by
  rw [h.eq]

theorem OnlyPPL.ptotal {s t : ServerState} (h : OnlyPPL s t) :
    t.totalParticipants = s.totalParticipants := by
  rw [h.eq]

theorem OnlyPPL.pghostPlayers {s t : ServerState} (h : OnlyPPL s t) :
    t.ghostPlayers = s.ghostPlayers := by
  rw [h.eq]

theorem OnlyPPL.paliveGhosts {s t : ServerState} (h : OnlyPPL s t) :
    t.aliveGhosts = s.aliveGhosts := by
  rw [h.eq]

theorem OnlyPPL.pledgerDate {s t : ServerState} (h : OnlyPPL s t) :
    t.ledgerDate = s.ledgerDate := by
  rw [h.eq]

theorem SameExceptPlayers.pparties {s t : ServerState} (h : SameExceptPlayers s t) :
    t.parties = s.parties := by
  rw [h.seq]

theorem SameExceptPlayers.pledger {s t : ServerState} (h : SameExceptPlayers s t) :
    t.ledger = s.ledger := by
  rw [h.seq]

theorem endGameStep_fst (st : ServerState) (gn : Nat) :
    (endGameStep st gn).1 =
      { st with
        status := .finished
        players := (winnersFold gn st.totalParticipants st.players st.ledger).1
        ledger := (winnersFold gn st.totalParticipants st.players st.ledger).2.1 } := rfl

/-! ### `processAnswers` projections -/

theorem processAnswers_counts (st : ServerState) (rand : Nat → ℚ) (gn : Nat) :
    (processAnswers st rand gn).counts = (roundVotes st rand).1 := rfl

theorem processAnswers_totalAnswers (st : ServerState) (rand : Nat → ℚ) (gn : Nat) :
    (processAnswers st rand gn).totalAnswers = (roundVotes st rand).2 := rfl

theorem processAnswers_percentages (st : ServerState) (rand : Nat → ℚ) (gn : Nat) :
    (processAnswers st rand gn).answerPercentages = roundPercentages st rand := rfl

theorem processAnswers_eliminated (st : ServerState) (rand : Nat → ℚ) (gn : Nat) :
    (processAnswers st rand gn).eliminated = (roundPass st).eliminated := rfl

theorem processAnswers_survivors (st : ServerState) (rand : Nat → ℚ) (gn : Nat) :
    (processAnswers st rand gn).survivors = (roundPass st).survivors := rfl

theorem processAnswers_ghostsEliminated (st : ServerState) (rand : Nat → ℚ) (gn : Nat) :
    (processAnswers st rand gn).ghostsEliminated = ghostsWrong st rand := rfl

theorem processAnswers_alivePlayersCount (st : ServerState) (rand : Nat → ℚ) (gn : Nat) :
    (processAnswers st rand gn).alivePlayersCount = alivePlayersAfter st := rfl

/-- The inner pipeline of `processAnswers`: the state just before the
terminal-condition check (`st3` in the source). -/
def roundState3 (st : ServerState) (rand : Nat → ℚ) (gn : Nat) : ServerState :=
  survivorWrites
    (elimWrites { st with players := (roundPass st).players, aliveGhosts := ghostsCorrect st rand }
      (roundPass st).eliminated gn (elimPosOf st) (st.currentQuestion + 1))
    (roundPass st).survivors

theorem roundState3_shape (st : ServerState) (rand : Nat → ℚ) (gn : Nat) :
    OnlyPPL { st with players := (roundPass st).players, aliveGhosts := ghostsCorrect st rand }
      (roundState3 st rand gn) :=
  OnlyPPL.trans (elimWrites_shape _ _ _ _ _) (survivorWrites_shape _ _)

theorem processAnswers_endsGame (st : ServerState) (rand : Nat → ℚ) (gn : Nat) :
    (processAnswers st rand gn).endsGame =
      (decide (9 ≤ st.currentQuestion) ||
       decide (alivePlayersAfter st + (roundState3 st rand gn).aliveGhosts ≤ 1)) := rfl

theorem processAnswers_state (st : ServerState) (rand : Nat → ℚ) (gn : Nat) :
    (processAnswers st rand gn).state =
      (if (processAnswers st rand gn).endsGame then roundState3 st rand gn
       else { roundState3 st rand gn with
              currentQuestion := (roundState3 st rand gn).currentQuestion + 1 }) := rfl

theorem roundState3_aliveGhosts (st : ServerState) (rand : Nat → ℚ) (gn : Nat) :
    (roundState3 st rand gn).aliveGhosts = ghostsCorrect st rand :=
  (roundState3_shape st rand gn).paliveGhosts

theorem processAnswers_state_aliveGhosts (st : ServerState) (rand : Nat → ℚ) (gn : Nat) :
    (processAnswers st rand gn).state.aliveGhosts = ghostsCorrect st rand := by
  rw [processAnswers_state]
  split
  · exact roundState3_aliveGhosts st rand gn
  · exact roundState3_aliveGhosts st rand gn

theorem processAnswers_state_status (st : ServerState) (rand : Nat → ℚ) (gn : Nat) :
    (processAnswers st rand gn).state.status = st.status := by
  rw [processAnswers_state]
  split
  · exact (roundState3_shape st rand gn).pstatus
  · exact (roundState3_shape st rand gn).pstatus

theorem processAnswers_state_ghostPlayers (st : ServerState) (rand : Nat → ℚ) (gn : Nat) :
    (processAnswers st rand gn).state.ghostPlayers = st.ghostPlayers := by
  rw [processAnswers_state]
  split
  · exact (roundState3_shape st rand gn).pghostPlayers
  · exact (roundState3_shape st rand gn).pghostPlayers

/-! ### Ghost pass-rate bounds -/

theorem correctRate_nonneg (qn : Nat) (r : ℚ) (h0 : 0 ≤ r) : 0 ≤ correctRate qn r := by
  unfold correctRate
  have h5 : (0 : ℚ) ≤ r * (5 / 100) := by positivity
  have h10 : (0 : ℚ) ≤ r * (10 / 100) := by positivity
  have h20 : (0 : ℚ) ≤ r * (20 / 100) := by positivity
  split_ifs <;> linarith

theorem correctRate_le_one (qn : Nat) (r : ℚ) (h1 : r < 1) : correctRate qn r ≤ 1 := by
  unfold correctRate
  have h5 : r * (5 / 100) ≤ 5 / 100 := by nlinarith
  have h10 : r * (10 / 100) ≤ 10 / 100 := by nlinarith
  have h20 : r * (20 / 100) ≤ 20 / 100 := by nlinarith
  split_ifs <;> linarith

theorem ghostsCorrect_le (st : ServerState) (rand : Nat → ℚ)
    (h1 : rand 0 < 1) : ghostsCorrect st rand ≤ st.aliveGhosts := by
  unfold ghostsCorrect
  have hle : (st.aliveGhosts : ℚ) * correctRate (st.currentQuestion + 1) (rand 0) ≤
      (st.aliveGhosts : ℚ) :=
    mul_le_of_le_one_right (Nat.cast_nonneg _) (correctRate_le_one _ _ h1)
  have hfl : ⌊(st.aliveGhosts : ℚ) * correctRate (st.currentQuestion + 1) (rand 0)⌋ ≤
      (st.aliveGhosts : ℤ) := by
    calc ⌊(st.aliveGhosts : ℚ) * correctRate (st.currentQuestion + 1) (rand 0)⌋
        ≤ ⌊((st.aliveGhosts : ℕ) : ℚ)⌋ := Int.floor_le_floor hle
      _ = (st.aliveGhosts : ℤ) := Int.floor_natCast _
  exact Int.toNat_le.mpr hfl

/-- Claim C5: each round samples the ghost pass-rate from the band of the
question tier — an affine image `lo + r * (hi - lo)` of the uniform draw
`r ∈ [0,1)`, hence uniform on the band and lying in it — and the new
alive-ghost count is `floor(previous * rate)`, with the ghosts lost equal
to previous minus new. -/
theorem ghost_attrition_bands (st : ServerState) (rand : Nat → ℚ) (gn : Nat)
    (h0 : 0 ≤ rand 0) (h1 : rand 0 < 1) :
    (processAnswers st rand gn).state.aliveGhosts =
      (⌊(st.aliveGhosts : ℚ) * correctRate (st.currentQuestion + 1) (rand 0)⌋).toNat ∧
    (processAnswers st rand gn).ghostsEliminated =
      st.aliveGhosts - (processAnswers st rand gn).state.aliveGhosts ∧
    correctRate (st.currentQuestion + 1) (rand 0) =
      (if st.currentQuestion + 1 ≤ 3 then 90 / 100 + rand 0 * (95 / 100 - 90 / 100)
       else if st.currentQuestion + 1 ≤ 6 then 65 / 100 + rand 0 * (75 / 100 - 65 / 100)
       else 20 / 100 + rand 0 * (40 / 100 - 20 / 100)) ∧
    (st.currentQuestion + 1 ≤ 3 →
      90 / 100 ≤ correctRate (st.currentQuestion + 1) (rand 0) ∧
      correctRate (st.currentQuestion + 1) (rand 0) ≤ 95 / 100) ∧
    (4 ≤ st.currentQuestion + 1 → st.currentQuestion + 1 ≤ 6 →
      65 / 100 ≤ correctRate (st.currentQuestion + 1) (rand 0) ∧
      correctRate (st.currentQuestion + 1) (rand 0) ≤ 75 / 100) ∧
    (7 ≤ st.currentQuestion + 1 →
      20 / 100 ≤ correctRate (st.currentQuestion + 1) (rand 0) ∧
      correctRate (st.currentQuestion + 1) (rand 0) ≤ 40 / 100) := by
  refine ⟨processAnswers_state_aliveGhosts st rand gn, ?_, ?_, ?_, ?_, ?_⟩
  · rw [processAnswers_ghostsEliminated, processAnswers_state_aliveGhosts]
    rfl
  · unfold correctRate
    split_ifs <;> ring
  · intro h3
    unfold correctRate
    have hx : 0 ≤ rand 0 * (5 / 100) := by positivity
    have hy : rand 0 * (5 / 100) ≤ 5 / 100 := by nlinarith
    simp only [h3, if_pos]
    constructor <;> linarith
  · intro h4 h6
    unfold correctRate
    have hn3 : ¬ st.currentQuestion + 1 ≤ 3 := by omega
    have hx : 0 ≤ rand 0 * (10 / 100) := by positivity
    have hy : rand 0 * (10 / 100) ≤ 10 / 100 := by nlinarith
    simp only [hn3, if_neg, if_pos, h6, if_false, if_true]
    constructor <;> linarith
  · intro h7
    unfold correctRate
    have hn3 : ¬ st.currentQuestion + 1 ≤ 3 := by omega
    have hn6 : ¬ st.currentQuestion + 1 ≤ 6 := by omega
    have hx : 0 ≤ rand 0 * (20 / 100) := by positivity
    have hy : rand 0 * (20 / 100) ≤ 20 / 100 := by nlinarith
    simp only [hn3, hn6, if_neg, if_false]
    constructor <;> linarith

/-- Witness for C5 at a concrete round-one state and the zero draw. -/
theorem ghost_attrition_bands_witness :
    (0 : ℚ) ≤ zeroRand 0 ∧ zeroRand 0 < 1 ∧
    (processAnswers stGhostRound zeroRand 1).state.aliveGhosts =
      (⌊(stGhostRound.aliveGhosts : ℚ) *
        correctRate (stGhostRound.currentQuestion + 1) (zeroRand 0)⌋).toNat := by
  refine ⟨by norm_num [zeroRand], by norm_num [zeroRand], ?_⟩
  exact (ghost_attrition_bands stGhostRound zeroRand 1 (by norm_num [zeroRand])
    (by norm_num [zeroRand])).1

/-- Claim C9: the Finished-to-Waiting reset clears every party and resets
each session's ready/alive/correct-count/participation fields (and its party
membership data), while the has-played-today flag and the stored result are
left untouched. -/
theorem reset_frame (st : ServerState) (r : ℚ) (sid : String) (p : PlayerState)
    (h : mget st.players sid = some p) :
    (resetGameStep st r).parties = [] ∧
    mget (resetGameStep st r).players sid = some
      { p with ready := false, alive := true, correctAnswers := 0,
               participatedInGame := false, partyCode := none, partyDisplayName := none } ∧
    (mget (resetGameStep st r).players sid).map PlayerState.hasPlayedToday =
      some p.hasPlayedToday ∧
    (mget (resetGameStep st r).players sid).map PlayerState.todayResult =
      some p.todayResult := by
  have hmap : mget (resetGameStep st r).players sid =
      (mget st.players sid).map (fun q => { q with
        ready := false, alive := true, correctAnswers := 0,
        participatedInGame := false, partyCode := none, partyDisplayName := none }) := by
    unfold resetGameStep
    exact mget_map (fun q => { q with
      ready := false, alive := true, correctAnswers := 0,
      participatedInGame := false, partyCode := none, partyDisplayName := none }) st.players sid
  refine ⟨rfl, ?_, ?_, ?_⟩ <;> rw [hmap, h] <;> rfl

/-- Witness for C9 at a concrete state with an identified, played session. -/
theorem reset_frame_witness :
    mget stSharedId.players "s1" = some
      { freshPlayer with persistentId := some "X" } ∧
    (resetGameStep stSharedId 0).parties = [] ∧
    mget (resetGameStep stSharedId 0).players "s1" = some
      { ({ freshPlayer with persistentId := some "X" }) with
        ready := false, alive := true, correctAnswers := 0,
        participatedInGame := false, partyCode := none, partyDisplayName := none } := by
  have h : mget stSharedId.players "s1" = some { freshPlayer with persistentId := some "X" } := by
    decide
  exact ⟨h, (reset_frame stSharedId 0 "s1" _ h).1, (reset_frame stSharedId 0 "s1" _ h).2.1⟩

/-! ### C1: the terminal condition of the round loop -/

theorem SameExceptPlayers.strans {s t u : ServerState}
    (h1 : SameExceptPlayers s t) (h2 : SameExceptPlayers t u) : SameExceptPlayers s u := by
  unfold SameExceptPlayers at *
  rw [h2, h1]

theorem submitAll_clear_shape (st : ServerState) (subs : List (String × Int)) :
    SameExceptPlayers st (submitAll (nextQuestionClear st) subs) :=
  SameExceptPlayers.strans (nextQuestionClear_shape st) (submitAll_shape subs _)

/-- Claim C1: a round of the playing loop transitions the game to Finished
iff the advanced question index reaches 10 or the surviving real
participants plus the alive ghosts number at most 1. -/
theorem round_finishes_iff (st : ServerState) (ri : RoundInput) (gn : Nat)
    (hstatus : st.status = GStatus.playing)
    (hlen : st.questions.length = 10)
    (hlt : st.currentQuestion < 10) :
    (roundApply st ri gn).status = GStatus.finished ↔
      (st.currentQuestion + 1 = 10 ∨
        (processAnswers (submitAll (nextQuestionClear st) ri.subs) ri.rand gn).alivePlayersCount +
          (processAnswers (submitAll (nextQuestionClear st) ri.subs) ri.rand gn).state.aliveGhosts
          ≤ 1) := by
  have hsep := submitAll_clear_shape st ri.subs
  have hcq : (submitAll (nextQuestionClear st) ri.subs).currentQuestion = st.currentQuestion := by
    rw [hsep.seq]
  have hends := processAnswers_endsGame (submitAll (nextQuestionClear st) ri.subs) ri.rand gn
  have haG := processAnswers_state_aliveGhosts (submitAll (nextQuestionClear st) ri.subs) ri.rand gn
  have haG3 := roundState3_aliveGhosts (submitAll (nextQuestionClear st) ri.subs) ri.rand gn
  have hAC := processAnswers_alivePlayersCount (submitAll (nextQuestionClear st) ri.subs) ri.rand gn
  unfold roundApply
  rw [if_neg (by omega : ¬ st.questions.length ≤ st.currentQuestion)]
  cases hend : (processAnswers (submitAll (nextQuestionClear st) ri.subs) ri.rand gn).endsGame with
  | true =>
    rw [hend] at hends
    simp only [hend, if_true, endGameStep_fst]
    have hcond : 9 ≤ (submitAll (nextQuestionClear st) ri.subs).currentQuestion ∨
        alivePlayersAfter (submitAll (nextQuestionClear st) ri.subs) +
          (roundState3 (submitAll (nextQuestionClear st) ri.subs) ri.rand gn).aliveGhosts ≤ 1 := by
      have := hends.symm
      rw [Bool.or_eq_true, decide_eq_true_eq, decide_eq_true_eq] at this
      exact this
    rw [hcq, haG3] at hcond
    rw [hAC, haG]
    simp only [true_iff]
    · omega
  | false =>
    rw [hend] at hends
    simp only [hend, if_false, Bool.false_eq_true]
    have hst3 := processAnswers_state_status (submitAll (nextQuestionClear st) ri.subs) ri.rand gn
    have hstq : (submitAll (nextQuestionClear st) ri.subs).status = st.status := by rw [hsep.seq]
    have hnc : ¬ (9 ≤ (submitAll (nextQuestionClear st) ri.subs).currentQuestion ∨
        alivePlayersAfter (submitAll (nextQuestionClear st) ri.subs) +
          (roundState3 (submitAll (nextQuestionClear st) ri.subs) ri.rand gn).aliveGhosts ≤ 1) := by
      intro hc
      have : (decide (9 ≤ (submitAll (nextQuestionClear st) ri.subs).currentQuestion) ||
          decide (alivePlayersAfter (submitAll (nextQuestionClear st) ri.subs) +
            (roundState3 (submitAll (nextQuestionClear st) ri.subs) ri.rand gn).aliveGhosts ≤ 1))
          = true := by
        rw [Bool.or_eq_true, decide_eq_true_eq, decide_eq_true_eq]
        exact hc
      rw [← hends] at this
      simp at this
    rw [hcq, haG3] at hnc
    rw [hst3, hstq, hstatus]
    constructor
    · intro hcontra
      cases hcontra
    · intro hc
      rw [hAC, haG] at hc
      exfalso
      exact hnc (by omega)

/-- Witness for C1: a game at question 4 with one real survivor and zero
alive ghosts after the round enters Finished immediately. -/
theorem round_finishes_iff_witness :
    stRound4.status = GStatus.playing ∧ stRound4.questions.length = 10 ∧
    stRound4.currentQuestion < 10 ∧
    (roundApply stRound4 ⟨[], zeroRand⟩ 1).status = GStatus.finished := by
  refine ⟨rfl, by decide, by decide, ?_⟩
  exact (round_finishes_iff stRound4 ⟨[], zeroRand⟩ 1 rfl (by decide) (by decide)).mpr
    (Or.inr (of_decide_eq_true (by with_unfolding_all rfl)))

/-! ### C3: answer percentages -/

/-- The voting bookkeeping invariant: the running total equals the sum of
the four base entries, and no other key has been touched. -/
def VoteInv (c : Int → Nat) (t : Nat) : Prop :=
  t = c 0 + c 1 + c 2 + c 3 ∧ ∀ k, c k ≠ 0 → 0 ≤ k ∧ k < 4

theorem voteInv_bump {c : Int → Nat} {t : Nat} (h : VoteInv c t) {k : Int}
    (hk0 : 0 ≤ k) (hk4 : k < 4) : VoteInv (bump c k) (t + 1) := by
  obtain ⟨hsum, hsupp⟩ := h
  constructor
  · have hcase : k = 0 ∨ k = 1 ∨ k = 2 ∨ k = 3 := by omega
    rcases hcase with h | h | h | h <;> subst h <;> simp [bump] <;> omega
  · intro j hj
    by_cases hjk : j = k
    · subst hjk; exact ⟨hk0, hk4⟩
    · exact hsupp j (by simpa [bump, hjk] using hj)

theorem voteInv_bumpBy {c : Int → Nat} {t : Nat} (h : VoteInv c t) {k : Int}
    (hk0 : 0 ≤ k) (hk4 : k < 4) (n : Nat) : VoteInv (bumpBy c k n) (t + n) := by
  obtain ⟨hsum, hsupp⟩ := h
  constructor
  · have hcase : k = 0 ∨ k = 1 ∨ k = 2 ∨ k = 3 := by omega
    rcases hcase with h | h | h | h <;> subst h <;> simp [bumpBy] <;> omega
  · intro j hj
    by_cases hjk : j = k
    · subst hjk; exact ⟨hk0, hk4⟩
    · exact hsupp j (by simpa [bumpBy, hjk] using hj)

theorem getD_mem_prop {P : Int → Prop} (l : List Int) (d : Int) (i : Nat)
    (hl : ∀ x ∈ l, P x) (hd : P d) : P (l.getD i d) := by
  induction l generalizing i with
  | nil => simpa [List.getD] using hd
  | cons a rest ih =>
    cases i with
    | zero => simpa using hl a (List.mem_cons_self a rest)
    | succ j =>
      simp only [List.getD_cons_succ]
      exact ih j (fun x hx => hl x (List.mem_cons_of_mem a hx))

theorem wrongAnswerIdxs_range (st : ServerState) :
    ∀ x ∈ wrongAnswerIdxs st, 0 ≤ x ∧ x < 4 := by
  intro x hx
  have hx' := List.mem_filter.mp hx
  have : x ∈ ([0, 1, 2, 3] : List Int) := hx'.1
  simp only [List.mem_cons, List.mem_singleton] at this
  rcases this with h | h | h | h | h <;> first | (subst h; constructor <;> norm_num) | cases h

theorem ghostWrongLoop_voteInv (wrong : List Int) (rand : Nat → ℚ)
    (hw : ∀ x ∈ wrong, 0 ≤ x ∧ x < 4) :
    ∀ (n i : Nat) (c : Int → Nat) (t : Nat), VoteInv c t →
      VoteInv (ghostWrongLoop wrong rand i n c t).1 (ghostWrongLoop wrong rand i n c t).2 := by
  intro n
  induction n with
  | zero => intro i c t h; simpa [ghostWrongLoop] using h
  | succ m ih =>
    intro i c t h
    rw [ghostWrongLoop]
    have hpick : 0 ≤ wrong.getD (⌊rand i * (wrong.length : ℚ)⌋).toNat 0 ∧
        wrong.getD (⌊rand i * (wrong.length : ℚ)⌋).toNat 0 < 4 := by
      refine getD_mem_prop (P := fun x => 0 ≤ x ∧ x < 4) wrong 0 _ hw ?_
      constructor <;> norm_num
    exact ih (i + 1) _ _ (voteInv_bump h hpick.1 hpick.2)

theorem answerPass_voteInv (ci : Int) :
    ∀ (l : List (String × PlayerState)) (c : Int → Nat) (t : Nat),
      (∀ e ∈ l, ∀ a : Int, e.2.currentAnswer = some a → 0 ≤ a ∧ a < 4) →
      VoteInv c t →
      VoteInv (answerPass ci c t l).counts (answerPass ci c t l).total := by
  intro l
  induction l with
  | nil => intro c t _ h; simpa [answerPass] using h
  | cons e rest ih =>
    intro c t hl h
    obtain ⟨sid, p⟩ := e
    have hrest : ∀ e ∈ rest, ∀ a : Int, e.2.currentAnswer = some a → 0 ≤ a ∧ a < 4 :=
      fun e he => hl e (List.mem_cons_of_mem _ he)
    rw [answerPass]
    by_cases hact : isActive p = true
    · simp only [hact, if_pos]
      have hcounted : VoteInv
          (match p.currentAnswer with
            | some a => (bump c a, t + 1)
            | none => (c, t)).1
          (match p.currentAnswer with
            | some a => (bump c a, t + 1)
            | none => (c, t)).2 := by
        cases ha : p.currentAnswer with
        | none => simpa using h
        | some a =>
          have := hl (sid, p) (List.mem_cons_self _ _) a ha
          simpa using voteInv_bump h this.1 this.2
      by_cases hc : p.currentAnswer = some ci
      · simp only [hc, if_pos]
        exact ih _ _ hrest (by simpa [hc] using hcounted)
      · simp only [hc, if_neg, if_false]
        exact ih _ _ hrest hcounted
    · simp only [hact]
      simp only [Bool.false_eq_true, if_false]
      exact ih _ _ hrest h

theorem roundVotes_voteInv (st : ServerState) (rand : Nat → ℚ)
    (hans : ∀ e ∈ st.players, ∀ a : Int, e.2.currentAnswer = some a → 0 ≤ a ∧ a < 4)
    (hci : 0 ≤ correctIndexOf st ∧ correctIndexOf st < 4) :
    VoteInv (roundVotes st rand).1 (roundVotes st rand).2 := by
  have h0 : VoteInv (fun _ => 0) 0 := ⟨rfl, by intro k hk; cases hk rfl⟩
  have h1 := answerPass_voteInv (correctIndexOf st) st.players (fun _ => 0) 0 hans h0
  have h2 := voteInv_bumpBy h1 hci.1 hci.2 (ghostsCorrect st rand)
  exact ghostWrongLoop_voteInv (wrongAnswerIdxs st) rand (wrongAnswerIdxs_range st)
    (ghostsWrong st rand) 1 _ _ h2

/-- The sum of the four JS-rounded percentages of a positive total lies in
`[99, 102]` (102 is attained when all four exact values end in `.5`). -/
theorem pctRound_sum_bounds (c0 c1 c2 c3 t : Nat) (ht : 0 < t)
    (hsum : c0 + c1 + c2 + c3 = t) :
    99 ≤ pctRound c0 t + pctRound c1 t + pctRound c2 t + pctRound c3 t ∧
    pctRound c0 t + pctRound c1 t + pctRound c2 t + pctRound c3 t ≤ 102 := by
  unfold pctRound
  have hT : 0 < 2 * t := by omega
  have h0 := Nat.div_add_mod (200 * c0 + t) (2 * t)
  have h1 := Nat.div_add_mod (200 * c1 + t) (2 * t)
  have h2 := Nat.div_add_mod (200 * c2 + t) (2 * t)
  have h3 := Nat.div_add_mod (200 * c3 + t) (2 * t)
  have hr0 : (200 * c0 + t) % (2 * t) < 2 * t := Nat.mod_lt _ hT
  have hr1 : (200 * c1 + t) % (2 * t) < 2 * t := Nat.mod_lt _ hT
  have hr2 : (200 * c2 + t) % (2 * t) < 2 * t := Nat.mod_lt _ hT
  have hr3 : (200 * c3 + t) % (2 * t) < 2 * t := Nat.mod_lt _ hT
  set q0 := (200 * c0 + t) / (2 * t) with hq0
  set q1 := (200 * c1 + t) / (2 * t) with hq1
  set q2 := (200 * c2 + t) / (2 * t) with hq2
  set q3 := (200 * c3 + t) / (2 * t) with hq3
  have hkey : 2 * t * (q0 + q1 + q2 + q3) +
      ((200 * c0 + t) % (2 * t) + (200 * c1 + t) % (2 * t) +
       (200 * c2 + t) % (2 * t) + (200 * c3 + t) % (2 * t)) = 204 * t := by
    have hd : 2 * t * (q0 + q1 + q2 + q3) =
        2 * t * q0 + 2 * t * q1 + 2 * t * q2 + 2 * t * q3 := by ring
    have hts : 200 * c0 + t + (200 * c1 + t) + (200 * c2 + t) + (200 * c3 + t) = 204 * t := by
      omega
    linarith
  constructor
  · have hR : (200 * c0 + t) % (2 * t) + (200 * c1 + t) % (2 * t) +
        (200 * c2 + t) % (2 * t) + (200 * c3 + t) % (2 * t) < 8 * t := by omega
    have h196 : 2 * t * 98 = 196 * t := by ring
    have hlt : 2 * t * 98 < 2 * t * (q0 + q1 + q2 + q3) := by linarith
    have h98 := Nat.lt_of_mul_lt_mul_left hlt
    omega
  · have h204 : 2 * t * 102 = 204 * t := by ring
    have hle : 2 * t * (q0 + q1 + q2 + q3) ≤ 2 * t * 102 := by
      linarith [Nat.zero_le ((200 * c0 + t) % (2 * t)), Nat.zero_le ((200 * c1 + t) % (2 * t)),
        Nat.zero_le ((200 * c2 + t) % (2 * t)), Nat.zero_le ((200 * c3 + t) % (2 * t))]
    exact Nat.le_of_mul_le_mul_left hle hT

/-- Claim C3 (amended): for a round whose counted real votes all lie in
`0..3` and whose correct index is in range, each entry of
`answerPercentages` is `round(votes-for-option / total-votes * 100)`, all
four percentages are 0 when the total is 0, and for a positive total the
sum of the four lies in `[99, 102]` — the claimed upper bound 101 is wrong,
see the counterexample where the sum is 102. -/
theorem percentages_sum_range (st : ServerState) (rand : Nat → ℚ) (gn : Nat)
    (hans : ∀ e ∈ st.players, ∀ a : Int, e.2.currentAnswer = some a → 0 ≤ a ∧ a < 4)
    (hci : 0 ≤ correctIndexOf st ∧ correctIndexOf st < 4) :
    ((processAnswers st rand gn).answerPercentages =
      (List.range 4).map (fun i =>
        if (processAnswers st rand gn).totalAnswers > 0
        then pctRound ((processAnswers st rand gn).counts (i : Int))
          (processAnswers st rand gn).totalAnswers
        else 0)) ∧
    ((processAnswers st rand gn).totalAnswers = 0 →
      (processAnswers st rand gn).answerPercentages = [0, 0, 0, 0]) ∧
    (0 < (processAnswers st rand gn).totalAnswers →
      99 ≤ (processAnswers st rand gn).answerPercentages.sum ∧
      (processAnswers st rand gn).answerPercentages.sum ≤ 102) := by
  obtain ⟨hsum, _⟩ := roundVotes_voteInv st rand hans hci
  refine ⟨rfl, ?_, ?_⟩
  · intro h
    rw [processAnswers_totalAnswers] at h
    rw [processAnswers_percentages]
    unfold roundPercentages
    rw [h]
    rfl
  · intro h
    rw [processAnswers_totalAnswers] at h
    have hexp : (processAnswers st rand gn).answerPercentages =
        [pctRound ((roundVotes st rand).1 0) (roundVotes st rand).2,
         pctRound ((roundVotes st rand).1 1) (roundVotes st rand).2,
         pctRound ((roundVotes st rand).1 2) (roundVotes st rand).2,
         pctRound ((roundVotes st rand).1 3) (roundVotes st rand).2] := by
      rw [processAnswers_percentages]
      unfold roundPercentages
      simp [h]
      rw [show (List.range 4).flatMap (fun a : Nat => ([(a : Int)] : List Int)) =
        ([0, 1, 2, 3] : List Int) from by decide]
      simp
    rw [hexp]
    simp only [List.sum_cons, List.sum_nil]
    have hb := pctRound_sum_bounds ((roundVotes st rand).1 0) ((roundVotes st rand).1 1)
      ((roundVotes st rand).1 2) ((roundVotes st rand).1 3) (roundVotes st rand).2 h hsum.symm
    constructor <;> omega

/-- Claim C3 counterexample: eight in-range votes distributed `[1, 1, 3, 3]`
give percentages `[13, 13, 38, 38]`, whose sum 102 exceeds the claimed
upper bound 101. -/
theorem percentages_sum_counterexample :
    (processAnswers stEighths zeroRand 1).totalAnswers = 8 ∧
    (processAnswers stEighths zeroRand 1).answerPercentages = [13, 13, 38, 38] ∧
    (processAnswers stEighths zeroRand 1).answerPercentages.sum = 102 ∧
    ¬ (processAnswers stEighths zeroRand 1).answerPercentages.sum ≤ 101 :=
  of_decide_eq_true (by with_unfolding_all rfl)

/-- Witness for C3's amended theorem on the `[1, 1, 3, 3]` round. -/
theorem percentages_sum_range_witness :
    (∀ e ∈ stEighths.players, ∀ a : Int, e.2.currentAnswer = some a → 0 ≤ a ∧ a < 4) ∧
    (0 ≤ correctIndexOf stEighths ∧ correctIndexOf stEighths < 4) ∧
    0 < (processAnswers stEighths zeroRand 1).totalAnswers ∧
    99 ≤ (processAnswers stEighths zeroRand 1).answerPercentages.sum ∧
    (processAnswers stEighths zeroRand 1).answerPercentages.sum ≤ 102 := by
  have hans : ∀ e ∈ stEighths.players, ∀ a : Int, e.2.currentAnswer = some a →
      0 ≤ a ∧ a < 4 := by decide
  have hci : 0 ≤ correctIndexOf stEighths ∧ correctIndexOf stEighths < 4 := by decide
  have hpos : 0 < (processAnswers stEighths zeroRand 1).totalAnswers :=
    of_decide_eq_true (by with_unfolding_all rfl)
  have hmain := (percentages_sum_range stEighths zeroRand 1 hans hci).2.2 hpos
  exact ⟨hans, hci, hpos, hmain.1, hmain.2⟩

/-! ### C10: answer-index range safety -/

/-- Claim C10 (amended): `submitAnswer` stores the raw client value with no
range validation (an eligible player's slot receives any integer the client
sends), so an out-of-range index does reach the answer-distribution
counting; the counted keys stay within `0..3` only under the assumption
that every stored answer is within `0..3` (and the correct index is in
range). -/
theorem submit_range_safety (st : ServerState) (rand : Nat → ℚ) (gn : Nat)
    (hans : ∀ e ∈ st.players, ∀ a : Int, e.2.currentAnswer = some a → 0 ≤ a ∧ a < 4)
    (hci : 0 ≤ correctIndexOf st ∧ correctIndexOf st < 4) :
    (∀ k : Int, (processAnswers st rand gn).counts k ≠ 0 → 0 ≤ k ∧ k < 4) ∧
    (∀ sid p (a : Int), mget st.players sid = some p →
      p.alive = true → st.status = GStatus.playing → p.leftGame = false →
      mget (submitAnswerOp st sid a).players sid =
        some { p with currentAnswer := some a }) := by
  constructor
  · intro k hk
    rw [processAnswers_counts] at hk
    exact (roundVotes_voteInv st rand hans hci).2 k hk
  · intro sid p a hp halive hplay hleft
    unfold submitAnswerOp
    rw [hp]
    have hcond : (p.alive && decide (st.status = GStatus.playing) && !p.leftGame) = true := by
      rw [halive, hleft, hplay]
      simp
    dsimp only
    rw [if_pos hcond]
    exact mget_mset_self st.players sid _

/-- Claim C10 counterexample: a client submits index 7; `processAnswers`
counts a vote at key 7, outside the four-entry answer array. -/
theorem submit_range_counterexample :
    (processAnswers (submitAnswerOp stSolo "s1" 7) zeroRand 1).counts 7 = 1 ∧
    ¬ ((0 : Int) ≤ 7 ∧ (7 : Int) < 4) :=
  of_decide_eq_true (by with_unfolding_all rfl)

/-- Witness for C10's amended theorem on the all-in-range round. -/
theorem submit_range_safety_witness :
    (∀ e ∈ stEighths.players, ∀ a : Int, e.2.currentAnswer = some a → 0 ≤ a ∧ a < 4) ∧
    (0 ≤ correctIndexOf stEighths ∧ correctIndexOf stEighths < 4) ∧
    (processAnswers stEighths zeroRand 1).counts 2 ≠ 0 ∧
    (0 ≤ (2 : Int) ∧ (2 : Int) < 4) := by
  have hans : ∀ e ∈ stEighths.players, ∀ a : Int, e.2.currentAnswer = some a →
      0 ≤ a ∧ a < 4 := by decide
  have hci : 0 ≤ correctIndexOf stEighths ∧ correctIndexOf stEighths < 4 := by decide
  have hk : (processAnswers stEighths zeroRand 1).counts 2 ≠ 0 :=
    of_decide_eq_true (by with_unfolding_all rfl)
  exact ⟨hans, hci, hk, (submit_range_safety stEighths zeroRand 1 hans hci).1 2 hk⟩

/-! ### C6: ghost-count invariants -/

theorem SameExceptPlayers.ghosts {s t : ServerState} (h : SameExceptPlayers s t) :
    SameGhosts s t := by
  rw [SameGhosts, h.seq]
  exact ⟨rfl, rfl⟩

theorem connectOp_ghosts (st : ServerState) (sid : String) :
    SameGhosts st (connectOp st sid) := ⟨rfl, rfl⟩

theorem identifyOp_ghosts (st : ServerState) (sid pid today : String) :
    SameGhosts st (identifyOp st sid pid today) := by
  unfold identifyOp
  cases mget st.players sid with
  | none => exact ⟨rfl, rfl⟩
  | some player =>
    dsimp only
    split <;> split <;> split <;> exact ⟨rfl, rfl⟩

theorem submitAnswerOp_ghosts (st : ServerState) (sid : String) (a : Int) :
    SameGhosts st (submitAnswerOp st sid a) :=
  (submitAnswerOp_shape st sid a).ghosts

theorem leaveGameOp_ghosts (st : ServerState) (sid : String) :
    SameGhosts st (leaveGameOp st sid) := by
  unfold leaveGameOp
  cases mget st.players sid <;> exact ⟨rfl, rfl⟩

theorem createPartyOp_ghosts (f : String → Bool) (st : ServerState)
    (sid dn code : String) (now : Nat) : SameGhosts st (createPartyOp f st sid dn code now).1 := by
  unfold createPartyOp
  cases mget st.players sid with
  | none => exact ⟨rfl, rfl⟩
  | some player =>
    dsimp only
    cases nameError f dn <;> exact ⟨rfl, rfl⟩

theorem joinPartyOp_ghosts (f : String → Bool) (st : ServerState) (sid code dn : String) :
    SameGhosts st (joinPartyOp f st sid code dn).1 := by
  unfold joinPartyOp
  cases mget st.players sid with
  | none => exact ⟨rfl, rfl⟩
  | some player =>
    dsimp only
    cases nameError f dn with
    | some e => exact ⟨rfl, rfl⟩
    | none =>
      dsimp only
      split
      · exact ⟨rfl, rfl⟩
      · cases pget st.parties code.toUpper with
        | none => exact ⟨rfl, rfl⟩
        | some party =>
          dsimp only
          split
          · exact ⟨rfl, rfl⟩
          · split <;> exact ⟨rfl, rfl⟩

theorem leavePartyOp_ghosts (st : ServerState) (sid : String) :
    SameGhosts st (leavePartyOp st sid) := by
  unfold leavePartyOp
  cases mget st.players sid with
  | none => exact ⟨rfl, rfl⟩
  | some player =>
    dsimp only
    cases player.partyCode <;> exact ⟨rfl, rfl⟩

theorem disconnectOp_ghosts (st : ServerState) (sid : String) :
    SameGhosts st (disconnectOp st sid) := by
  unfold disconnectOp
  cases mget st.players sid with
  | none => dsimp only; split <;> exact ⟨rfl, rfl⟩
  | some player =>
    dsimp only
    cases player.partyCode with
    | none => dsimp only; split <;> exact ⟨rfl, rfl⟩
    | some partyCode =>
      dsimp only
      cases pget st.parties partyCode with
      | none => dsimp only; split <;> exact ⟨rfl, rfl⟩
      | some party =>
        dsimp only
        split <;> (dsimp only; split <;> exact ⟨rfl, rfl⟩)

theorem startGameStep_ghosts (st : ServerState) (qs : List Question) :
    SameGhosts st (startGameStep st qs) := ⟨rfl, rfl⟩

theorem endGameStep_ghosts (st : ServerState) (gn : Nat) :
    SameGhosts st (endGameStep st gn).1 := ⟨rfl, rfl⟩

theorem resetGameStep_ghosts (st : ServerState) (r : ℚ) :
    (resetGameStep st r).aliveGhosts = ghostDraw r ∧
    (resetGameStep st r).ghostPlayers = ghostDraw r := ⟨rfl, rfl⟩

theorem roundApply_ghosts (st : ServerState) (ri : RoundInput) (gn : Nat)
    (h1 : ri.rand 0 < 1) :
    (roundApply st ri gn).aliveGhosts ≤ st.aliveGhosts ∧
    (roundApply st ri gn).ghostPlayers = st.ghostPlayers := by
  have hsep := submitAll_clear_shape st ri.subs
  have hg : (submitAll (nextQuestionClear st) ri.subs).aliveGhosts = st.aliveGhosts := by
    rw [hsep.seq]
  have hgp : (submitAll (nextQuestionClear st) ri.subs).ghostPlayers = st.ghostPlayers := by
    rw [hsep.seq]
  have hle : ghostsCorrect (submitAll (nextQuestionClear st) ri.subs) ri.rand ≤ st.aliveGhosts := by
    calc ghostsCorrect (submitAll (nextQuestionClear st) ri.subs) ri.rand
        ≤ (submitAll (nextQuestionClear st) ri.subs).aliveGhosts :=
          ghostsCorrect_le _ ri.rand h1
      _ = st.aliveGhosts := hg
  unfold roundApply
  split
  · exact ⟨le_of_eq rfl, rfl⟩
  · split
    · constructor
      · calc (endGameStep (processAnswers (submitAll (nextQuestionClear st) ri.subs)
              ri.rand gn).state gn).1.aliveGhosts
            = (processAnswers (submitAll (nextQuestionClear st) ri.subs)
                ri.rand gn).state.aliveGhosts := rfl
          _ = ghostsCorrect (submitAll (nextQuestionClear st) ri.subs) ri.rand :=
              processAnswers_state_aliveGhosts _ _ _
          _ ≤ st.aliveGhosts := hle
      · calc (endGameStep (processAnswers (submitAll (nextQuestionClear st) ri.subs)
              ri.rand gn).state gn).1.ghostPlayers
            = (processAnswers (submitAll (nextQuestionClear st) ri.subs)
                ri.rand gn).state.ghostPlayers := rfl
          _ = (submitAll (nextQuestionClear st) ri.subs).ghostPlayers :=
              processAnswers_state_ghostPlayers _ _ _
          _ = st.ghostPlayers := hgp
    · constructor
      · calc (processAnswers (submitAll (nextQuestionClear st) ri.subs)
              ri.rand gn).state.aliveGhosts
            = ghostsCorrect (submitAll (nextQuestionClear st) ri.subs) ri.rand :=
              processAnswers_state_aliveGhosts _ _ _
          _ ≤ st.aliveGhosts := hle
      · calc (processAnswers (submitAll (nextQuestionClear st) ri.subs)
              ri.rand gn).state.ghostPlayers
            = (submitAll (nextQuestionClear st) ri.subs).ghostPlayers :=
              processAnswers_state_ghostPlayers _ _ _
          _ = st.ghostPlayers := hgp

/-- Claim C6: in every reachable server state `0 ≤ aliveGhosts ≤
ghostPlayers` holds, and a round of a game never increases the alive-ghost
count. -/
theorem ghosts_bounded (st : ServerState) :
    (Reach st → 0 ≤ st.aliveGhosts ∧ st.aliveGhosts ≤ st.ghostPlayers) ∧
    (∀ (ri : RoundInput) (gn : Nat), ri.rand 0 < 1 →
      (roundApply st ri gn).aliveGhosts ≤ st.aliveGhosts) := by
  constructor
  · intro h
    refine ⟨Nat.zero_le _, ?_⟩
    induction h with
    | init r h0 h1 => exact le_of_eq rfl
    | @connect s0 sid h ih =>
      have hs := connectOp_ghosts s0 sid
      rw [hs.1, hs.2]; exact ih
    | @identify s0 sid pid today h ih =>
      have hs := identifyOp_ghosts s0 sid pid today
      rw [hs.1, hs.2]; exact ih
    | @submit s0 sid a h ih =>
      have hs := submitAnswerOp_ghosts s0 sid a
      rw [hs.1, hs.2]; exact ih
    | @leaveGame s0 sid h ih =>
      have hs := leaveGameOp_ghosts s0 sid
      rw [hs.1, hs.2]; exact ih
    | @createParty s0 f sid dn code now h ih =>
      have hs := createPartyOp_ghosts f s0 sid dn code now
      rw [hs.1, hs.2]; exact ih
    | @joinParty s0 f sid code dn h ih =>
      have hs := joinPartyOp_ghosts f s0 sid code dn
      rw [hs.1, hs.2]; exact ih
    | @leaveParty s0 sid h ih =>
      have hs := leavePartyOp_ghosts s0 sid
      rw [hs.1, hs.2]; exact ih
    | @disconnect s0 sid h ih =>
      have hs := disconnectOp_ghosts s0 sid
      rw [hs.1, hs.2]; exact ih
    | @startGame s0 qs h ih =>
      have hs := startGameStep_ghosts s0 qs
      rw [hs.1, hs.2]; exact ih
    | @round s0 ri gn h0 h1 h ih =>
      have hs := roundApply_ghosts s0 ri gn (h1 0)
      rw [hs.2]
      exact le_trans hs.1 ih
    | @endGame s0 gn h ih =>
      have hs := endGameStep_ghosts s0 gn
      rw [hs.1, hs.2]; exact ih
    | @reset s0 r h0 h1 h ih =>
      have hs := resetGameStep_ghosts s0 r
      rw [hs.1, hs.2]
  · intro ri gn h1
    exact (roundApply_ghosts st ri gn h1).1

/-- Witness for C6 at the startup state and a concrete round. -/
theorem ghosts_bounded_witness :
    Reach (serverInit 0) ∧
    (0 ≤ (serverInit 0).aliveGhosts ∧ (serverInit 0).aliveGhosts ≤ (serverInit 0).ghostPlayers) ∧
    zeroRand 0 < 1 ∧
    (roundApply stGhostRound ⟨[], zeroRand⟩ 1).aliveGhosts ≤ stGhostRound.aliveGhosts := by
  have hre : Reach (serverInit 0) := Reach.init 0 (by norm_num) (by norm_num)
  refine ⟨hre, (ghosts_bounded (serverInit 0)).1 hre, by norm_num [zeroRand], ?_⟩
  exact (ghosts_bounded stGhostRound).2 ⟨[], zeroRand⟩ 1 (by norm_num [zeroRand])

/-! ### C8: party validation failures are soft -/

/-- Claim C8: every `createParty`/`joinParty` request that fails validation
(missing player, empty/too-long/profane name, unknown code, full party,
duplicate membership) is acknowledged with `success = false` plus an error
message and mutates no state; joining a 5-member party in particular
returns exactly the error `Party is full (max 5 members)` and leaves the
party at five members. -/
theorem party_validation_soft (f : String → Bool) (st : ServerState) (sid : String)
    (dn codeArg freshCode : String) (now : Nat) :
    ((mget st.players sid = none ∨ (nameError f dn).isSome = true) →
      (createPartyOp f st sid dn freshCode now).1 = st ∧
      (createPartyOp f st sid dn freshCode now).2.success = false ∧
      (createPartyOp f st sid dn freshCode now).2.error.isSome = true) ∧
    ((mget st.players sid = none ∨ (nameError f dn).isSome = true ∨ codeArg = "" ∨
      pget st.parties codeArg.toUpper = none ∨
      (∃ pt, pget st.parties codeArg.toUpper = some pt ∧ 5 ≤ pt.members.length) ∨
      (∃ pt, pget st.parties codeArg.toUpper = some pt ∧
        pt.members.any (fun m => m.socketId == sid) = true)) →
      (joinPartyOp f st sid codeArg dn).1 = st ∧
      (joinPartyOp f st sid codeArg dn).2.success = false ∧
      (joinPartyOp f st sid codeArg dn).2.error.isSome = true) ∧
    (∀ p pt, mget st.players sid = some p → nameError f dn = none → codeArg ≠ "" →
      pget st.parties codeArg.toUpper = some pt → pt.members.length = 5 →
      joinPartyOp f st sid codeArg dn =
        (st, ⟨false, none, none, some "Party is full (max 5 members)"⟩) ∧
      ∀ pt', pget (joinPartyOp f st sid codeArg dn).1.parties codeArg.toUpper = some pt' →
        pt'.members.length = 5) := by
  refine ⟨?_, ?_, ?_⟩
  · intro h
    unfold createPartyOp
    cases hm : mget st.players sid with
    | none => exact ⟨rfl, rfl, rfl⟩
    | some player =>
      dsimp only
      cases hne : nameError f dn with
      | some e => exact ⟨rfl, rfl, rfl⟩
      | none =>
        exfalso
        rcases h with h | h
        · rw [hm] at h; cases h
        · rw [hne] at h; simp at h
  · intro h
    unfold joinPartyOp
    cases hm : mget st.players sid with
    | none => exact ⟨rfl, rfl, rfl⟩
    | some player =>
      dsimp only
      cases hne : nameError f dn with
      | some e => exact ⟨rfl, rfl, rfl⟩
      | none =>
        dsimp only
        by_cases hc : codeArg = ""
        · rw [if_pos hc]; exact ⟨rfl, rfl, rfl⟩
        · rw [if_neg hc]
          cases hpg : pget st.parties codeArg.toUpper with
          | none => exact ⟨rfl, rfl, rfl⟩
          | some party =>
            dsimp only
            by_cases hfull : party.members.length ≥ 5
            · rw [if_pos hfull]; exact ⟨rfl, rfl, rfl⟩
            · rw [if_neg hfull]
              by_cases hdup : party.members.any (fun m => m.socketId == sid) = true
              · rw [if_pos hdup]; exact ⟨rfl, rfl, rfl⟩
              · rw [if_neg hdup]
                exfalso
                rcases h with h | h | h | h | ⟨pt, hpt, hlen⟩ | ⟨pt, hpt, hany⟩
                · rw [hm] at h; cases h
                · rw [hne] at h; simp at h
                · exact hc h
                · rw [hpg] at h; cases h
                · rw [hpg] at hpt
                  injection hpt with hpt'
                  subst hpt'
                  exact hfull hlen
                · rw [hpg] at hpt
                  injection hpt with hpt'
                  subst hpt'
                  exact hdup hany
  · intro p pt hm hne hc hpg hlen
    have heq : joinPartyOp f st sid codeArg dn =
        (st, ⟨false, none, none, some "Party is full (max 5 members)"⟩) := by
      unfold joinPartyOp
      rw [hm]
      dsimp only
      rw [hne]
      dsimp only
      rw [if_neg hc, hpg]
      dsimp only
      rw [if_pos (by omega : pt.members.length ≥ 5)]
    refine ⟨heq, ?_⟩
    intro pt' hpt'
    rw [heq] at hpt'
    dsimp only at hpt'
    rw [hpg] at hpt'
    injection hpt' with hpt''
    rw [← hpt'']
    exact hlen

/-- Witness for C8: the sixth valid join against the five-member party. -/
theorem party_validation_soft_witness :
    mget stFiveParty.players "p6" = some freshPlayer ∧
    nameError noProf "n6" = none ∧
    (∃ pt, pget stFiveParty.parties "AAAAAA".toUpper = some pt ∧ pt.members.length = 5) ∧
    joinPartyOp noProf stFiveParty "p6" "AAAAAA" "n6" =
      (stFiveParty, ⟨false, none, none, some "Party is full (max 5 members)"⟩) := by
  have hm : mget stFiveParty.players "p6" = some freshPlayer := by with_unfolding_all rfl
  have hne : nameError noProf "n6" = none := by with_unfolding_all rfl
  have hmem : (pget stFiveParty.parties "AAAAAA".toUpper).map
      (fun q => q.members.length) = some 5 := by with_unfolding_all rfl
  cases hpg : pget stFiveParty.parties "AAAAAA".toUpper with
  | none => rw [hpg] at hmem; cases hmem
  | some pt =>
    rw [hpg] at hmem
    have hlen : pt.members.length = 5 := by
      injection hmem
    refine ⟨hm, hne, ⟨pt, rfl, hlen⟩, ?_⟩
    exact ((party_validation_soft noProf stFiveParty "p6" "n6" "AAAAAA" "" 0).2.2
      freshPlayer pt hm hne (of_decide_eq_true (by with_unfolding_all rfl)) hpg hlen).1

/-! ### C7: party membership lemmas -/

theorem pget_code (ps : List Party) (c : String) (q : Party) (h : pget ps c = some q) :
    q.code = c := by
  induction ps with
  | nil => cases h
  | cons hd tl ih =>
    rw [pget] at h
    by_cases h0 : hd.code = c
    · rw [if_pos h0] at h
      injection h with h'
      rw [← h']
      exact h0
    · rw [if_neg h0] at h
      exact ih h

theorem pset_fresh (ps : List Party) (pt : Party) (h : pget ps pt.code = none) :
    pset ps pt = ps ++ [pt] := by
  induction ps with
  | nil => rfl
  | cons hd tl ih =>
    rw [pget] at h
    by_cases h0 : hd.code = pt.code
    · rw [if_pos h0] at h; cases h
    · rw [if_neg h0] at h
      rw [pset, if_neg h0, ih h]
      rfl

theorem pset_mem_char (ps : List Party) (pt : Party)
    (hpw : ps.Pairwise (fun a b => a.code ≠ b.code)) (pt' : Party)
    (h : pt' ∈ pset ps pt) : pt' = pt ∨ (pt' ∈ ps ∧ pt'.code ≠ pt.code) := by
  induction ps with
  | nil =>
    rw [pset] at h
    simp only [List.mem_singleton] at h
    exact Or.inl h
  | cons hd tl ih =>
    rw [pset] at h
    by_cases h0 : hd.code = pt.code
    · rw [if_pos h0] at h
      rcases List.mem_cons.mp h with h1 | h1
      · exact Or.inl h1
      · right
        refine ⟨List.mem_cons_of_mem hd h1, ?_⟩
        have := (List.pairwise_cons.mp hpw).1 pt' h1
        rw [h0] at this
        exact Ne.symm this
    · rw [if_neg h0] at h
      rcases List.mem_cons.mp h with h1 | h1
      · subst h1
        exact Or.inr ⟨List.mem_cons_self _ _, h0⟩
      · rcases ih (List.pairwise_cons.mp hpw).2 h1 with h2 | h2
        · exact Or.inl h2
        · exact Or.inr ⟨List.mem_cons_of_mem hd h2.1, h2.2⟩

theorem pset_pairwise (ps : List Party) (pt : Party)
    (hpw : ps.Pairwise (fun a b => a.code ≠ b.code)) :
    (pset ps pt).Pairwise (fun a b => a.code ≠ b.code) := by
  induction ps with
  | nil => simp [pset]
  | cons hd tl ih =>
    obtain ⟨hhd, htl⟩ := List.pairwise_cons.mp hpw
    rw [pset]
    by_cases h0 : hd.code = pt.code
    · rw [if_pos h0]
      refine List.pairwise_cons.mpr ⟨?_, htl⟩
      intro b hb
      rw [← h0]
      exact hhd b hb
    · rw [if_neg h0]
      refine List.pairwise_cons.mpr ⟨?_, ih htl⟩
      intro b hb
      rcases pset_mem_char tl pt htl b hb with h1 | h1
      · rw [h1]; exact fun hc => h0 hc
      · exact hhd b h1.1

theorem pdel_sublist (ps : List Party) (c : String) : (pdel ps c).Sublist ps := by
  induction ps with
  | nil => simp [pdel]
  | cons hd tl ih =>
    rw [pdel]
    by_cases h0 : hd.code = c
    · rw [if_pos h0]
      exact (List.sublist_cons_self hd tl)
    · rw [if_neg h0]
      exact List.Sublist.cons₂ hd ih

theorem pdel_pairwise (ps : List Party) (c : String)
    (hpw : ps.Pairwise (fun a b => a.code ≠ b.code)) :
    (pdel ps c).Pairwise (fun a b => a.code ≠ b.code) :=
  hpw.sublist (pdel_sublist ps c)

theorem pdel_mem (ps : List Party) (c : String) (pt : Party) (h : pt ∈ pdel ps c) :
    pt ∈ ps :=
  (pdel_sublist ps c).mem h

theorem pdel_code_ne (ps : List Party) (c : String)
    (hpw : ps.Pairwise (fun a b => a.code ≠ b.code)) (pt : Party)
    (h : pt ∈ pdel ps c) : pt.code ≠ c := by
  induction ps with
  | nil => cases h
  | cons hd tl ih =>
    obtain ⟨hhd, htl⟩ := List.pairwise_cons.mp hpw
    rw [pdel] at h
    by_cases h0 : hd.code = c
    · rw [if_pos h0] at h
      intro hc
      exact hhd pt h (by rw [h0, hc])
    · rw [if_neg h0] at h
      rcases List.mem_cons.mp h with h1 | h1
      · subst h1; exact h0
      · exact ih htl h1

theorem filter_parties_le_one (l : List Party)
    (hpw : l.Pairwise (fun a b => a.code ≠ b.code)) (q : Party → Bool) (c : String)
    (hq : ∀ pt ∈ l, q pt = true → pt.code = c) : (l.filter q).length ≤ 1 := by
  induction l with
  | nil => simp
  | cons hd tl ih =>
    obtain ⟨hhd, htl⟩ := List.pairwise_cons.mp hpw
    rw [List.filter_cons]
    cases hqhd : q hd with
    | false =>
      simp only [Bool.false_eq_true, if_false]
      exact ih htl (fun pt hpt => hq pt (List.mem_cons_of_mem hd hpt))
    | true =>
      simp only [if_true]
      have hempty : tl.filter q = [] := by
        rw [List.filter_eq_nil_iff]
        intro x hx
        intro hqx
        have hxc : x.code = c := hq x (List.mem_cons_of_mem hd hx) hqx
        have hhdc : hd.code = c := hq hd (List.mem_cons_self hd tl) hqhd
        exact hhd x hx (by rw [hxc, hhdc])
      rw [hempty]
      simp

theorem pget_mem (ps : List Party) (c : String) (q : Party) (h : pget ps c = some q) :
    q ∈ ps := by
  induction ps with
  | nil => cases h
  | cons hd tl ih =>
    rw [pget] at h
    by_cases h0 : hd.code = c
    · rw [if_pos h0] at h
      injection h with h'
      rw [← h']
      exact List.mem_cons_self _ _
    · rw [if_neg h0] at h
      exact List.mem_cons_of_mem hd (ih h)

theorem partyInv_at_most_one (st : ServerState) (hinv : PartyInv st) (sid : String) :
    (partiesWith st sid).length ≤ 1 := by
  unfold partiesWith
  have hany : ∀ pt : Party, pt.members.any (fun m => m.socketId == sid) = true →
      ∃ m ∈ pt.members, m.socketId = sid := by
    intro pt hq
    obtain ⟨m, hm, hms⟩ := List.any_eq_true.mp hq
    exact ⟨m, hm, by simpa using hms⟩
  cases hp : mget st.players sid with
  | none =>
    have hempty : st.parties.filter (fun pt => pt.members.any (fun m => m.socketId == sid))
        = [] := by
      rw [List.filter_eq_nil_iff]
      intro pt hpt hq
      obtain ⟨m, hm, hms⟩ := hany pt hq
      obtain ⟨p, hpl, _⟩ := hinv.1 pt hpt m hm
      rw [hms, hp] at hpl
      cases hpl
    rw [hempty]
    simp
  | some p =>
    cases hpc : p.partyCode with
    | none =>
      have hempty : st.parties.filter (fun pt => pt.members.any (fun m => m.socketId == sid))
          = [] := by
        rw [List.filter_eq_nil_iff]
        intro pt hpt hq
        obtain ⟨m, hm, hms⟩ := hany pt hq
        obtain ⟨p', hpl, hcode⟩ := hinv.1 pt hpt m hm
        rw [hms, hp] at hpl
        injection hpl with h'
        subst h'
        rw [hpc] at hcode
        cases hcode
      rw [hempty]
      simp
    | some c =>
      apply filter_parties_le_one st.parties hinv.2 _ c
      intro pt hpt hq
      obtain ⟨m, hm, hms⟩ := hany pt hq
      obtain ⟨p', hpl, hcode⟩ := hinv.1 pt hpt m hm
      rw [hms, hp] at hpl
      injection hpl with h'
      subst h'
      rw [hpc] at hcode
      injection hcode with h''
      exact h''.symm

theorem partyInv_leave (st : ServerState) (sid : String) (hinv : PartyInv st) :
    PartyInv (leavePartyOp st sid) := by
  obtain ⟨hmem, hpw⟩ := hinv
  unfold leavePartyOp
  cases hp : mget st.players sid with
  | none => exact ⟨hmem, hpw⟩
  | some player =>
    dsimp only
    cases hpc : player.partyCode with
    | none => exact ⟨hmem, hpw⟩
    | some c =>
      dsimp only
      cases hpg : pget st.parties c with
      | none =>
        refine ⟨?_, hpw⟩
        intro pt hpt m hm
        obtain ⟨p, hpl, hcode⟩ := hmem pt hpt m hm
        by_cases hms : m.socketId = sid
        · exfalso
          rw [hms, hp] at hpl
          injection hpl with h'
          subst h'
          rw [hpc] at hcode
          injection hcode with h''
          exact pget_none_not_mem st.parties c hpg pt hpt h''.symm
        · exact ⟨p, by rw [mget_mset_ne _ _ _ _ hms]; exact hpl, hcode⟩
      | some party =>
        dsimp only
        split
        · refine ⟨?_, pdel_pairwise _ _ hpw⟩
          intro pt hpt m hm
          have hptps : pt ∈ st.parties := pdel_mem _ _ _ hpt
          obtain ⟨p, hpl, hcode⟩ := hmem pt hptps m hm
          by_cases hms : m.socketId = sid
          · exfalso
            rw [hms, hp] at hpl
            injection hpl with h'
            subst h'
            rw [hpc] at hcode
            injection hcode with h''
            exact pdel_code_ne st.parties c hpw pt hpt h''.symm
          · exact ⟨p, by rw [mget_mset_ne _ _ _ _ hms]; exact hpl, hcode⟩
        · refine ⟨?_, pset_pairwise _ _ hpw⟩
          intro pt hpt m hm
          rcases pset_mem_char st.parties _ hpw pt hpt with h1 | h1
          · subst h1
            have hm' := List.mem_filter.mp hm
            have hms : m.socketId ≠ sid := by simpa using hm'.2
            obtain ⟨p, hpl, hcode⟩ := hmem party (pget_mem _ _ _ hpg) m hm'.1
            exact ⟨p, by rw [mget_mset_ne _ _ _ _ hms]; exact hpl, hcode⟩
          · obtain ⟨p, hpl, hcode⟩ := hmem pt h1.1 m hm
            by_cases hms : m.socketId = sid
            · exfalso
              rw [hms, hp] at hpl
              injection hpl with h'
              subst h'
              rw [hpc] at hcode
              injection hcode with h''
              apply h1.2
              show pt.code = party.code
              rw [← h'', pget_code st.parties c party hpg]
            · exact ⟨p, by rw [mget_mset_ne _ _ _ _ hms]; exact hpl, hcode⟩

theorem partyInv_disconnect (st : ServerState) (sid : String) (hinv : PartyInv st) :
    PartyInv (disconnectOp st sid) := by
  obtain ⟨hmem, hpw⟩ := hinv
  unfold disconnectOp
  have hmain : ∀ st1 : ServerState,
      (∀ pt, pt ∈ st1.parties → ∀ m, m ∈ pt.members →
        m.socketId ≠ sid ∧ ∃ p, mget st.players m.socketId = some p ∧
          p.partyCode = some pt.code) →
      st1.parties.Pairwise (fun a b => a.code ≠ b.code) →
      st1.players = st.players →
      PartyInv { st1 with players := mdel st1.players sid } ∧
      PartyInv { { st1 with players := mdel st1.players sid } with
        waitingCount := realWaitingCount { st1 with players := mdel st1.players sid } +
          { st1 with players := mdel st1.players sid }.ghostPlayers } := by
    intro st1 hmm hpw1 hpl1
    have hbase : PartyInv { st1 with players := mdel st1.players sid } := by
      refine ⟨?_, hpw1⟩
      intro pt hpt m hm
      obtain ⟨hms, p, hpl, hcode⟩ := hmm pt hpt m hm
      refine ⟨p, ?_, hcode⟩
      show mget (mdel st1.players sid) m.socketId = some p
      rw [mget_mdel_ne _ _ _ hms, hpl1]
      exact hpl
    exact ⟨hbase, hbase⟩
  cases hp : mget st.players sid with
  | none =>
    dsimp only
    have h := hmain st (by
      intro pt hpt m hm
      obtain ⟨p, hpl, hcode⟩ := hmem pt hpt m hm
      refine ⟨?_, p, hpl, hcode⟩
      intro hms
      rw [hms, hp] at hpl
      cases hpl) hpw rfl
    split
    · exact h.2
    · exact h.1
  | some player =>
    dsimp only
    cases hpc : player.partyCode with
    | none =>
      dsimp only
      have hnomem : ∀ pt, pt ∈ st.parties → ∀ m, m ∈ pt.members →
          m.socketId ≠ sid ∧ ∃ p, mget st.players m.socketId = some p ∧
            p.partyCode = some pt.code := by
        intro pt hpt m hm
        obtain ⟨p, hpl, hcode⟩ := hmem pt hpt m hm
        refine ⟨?_, p, hpl, hcode⟩
        intro hms
        rw [hms, hp] at hpl
        injection hpl with h'
        subst h'
        rw [hpc] at hcode
        cases hcode
      have h := hmain st hnomem hpw rfl
      split
      · exact h.2
      · exact h.1
    | some c =>
      dsimp only
      cases hpg : pget st.parties c with
      | none =>
        dsimp only
        have hnomem : ∀ pt, pt ∈ st.parties → ∀ m, m ∈ pt.members →
            m.socketId ≠ sid ∧ ∃ p, mget st.players m.socketId = some p ∧
              p.partyCode = some pt.code := by
          intro pt hpt m hm
          obtain ⟨p, hpl, hcode⟩ := hmem pt hpt m hm
          refine ⟨?_, p, hpl, hcode⟩
          intro hms
          rw [hms, hp] at hpl
          injection hpl with h'
          subst h'
          rw [hpc] at hcode
          injection hcode with h''
          exact pget_none_not_mem st.parties c hpg pt hpt h''.symm
        have h := hmain st hnomem hpw rfl
        split
        · exact h.2
        · exact h.1
      | some party =>
        dsimp only
        split
        · have h := hmain { st with parties := pdel st.parties c } (by
            intro pt hpt m hm
            have hptps : pt ∈ st.parties := pdel_mem _ _ _ hpt
            obtain ⟨p, hpl, hcode⟩ := hmem pt hptps m hm
            refine ⟨?_, p, hpl, hcode⟩
            intro hms
            rw [hms, hp] at hpl
            injection hpl with h'
            subst h'
            rw [hpc] at hcode
            injection hcode with h''
            exact pdel_code_ne st.parties c hpw pt hpt h''.symm)
            (pdel_pairwise _ _ hpw) rfl
          split
          · exact h.2
          · exact h.1
        · rename_i hremlen
          have harg : ∀ pt, pt ∈ pset st.parties { party with members := party.members.filter (fun m => m.socketId != sid) } → ∀ m, m ∈ pt.members → m.socketId ≠ sid ∧ ∃ p, mget st.players m.socketId = some p ∧ p.partyCode = some pt.code := by
            intro pt hpt m hm
            rcases pset_mem_char st.parties _ hpw pt hpt with h1 | h1
            · subst h1
              have hm' := List.mem_filter.mp hm
              have hms : m.socketId ≠ sid := by simpa using hm'.2
              obtain ⟨p, hpl, hcode⟩ := hmem party (pget_mem _ _ _ hpg) m hm'.1
              exact ⟨hms, p, hpl, hcode⟩
            · obtain ⟨p, hpl, hcode⟩ := hmem pt h1.1 m hm
              refine ⟨?_, p, hpl, hcode⟩
              intro hms
              rw [hms, hp] at hpl
              injection hpl with h'
              subst h'
              rw [hpc] at hcode
              injection hcode with h''
              apply h1.2
              show pt.code = party.code
              rw [← h'', pget_code st.parties c party hpg]
          have h := hmain { st with parties := pset st.parties { party with members := party.members.filter (fun m => m.socketId != sid) } } harg (pset_pairwise _ _ hpw) rfl
          split
          · exact h.2
          · exact h.1

theorem partyInv_create (f : String → Bool) (st : ServerState) (sid dn code : String)
    (now : Nat) (hinv : PartyInv st) (hfresh : pget st.parties code = none)
    (hfree : ∀ p, mget st.players sid = some p → p.partyCode = none) :
    PartyInv (createPartyOp f st sid dn code now).1 := by
  obtain ⟨hmem, hpw⟩ := hinv
  unfold createPartyOp
  cases hp : mget st.players sid with
  | none => exact ⟨hmem, hpw⟩
  | some player =>
    dsimp only
    cases hne : nameError f dn with
    | some e => exact ⟨hmem, hpw⟩
    | none =>
      dsimp only
      have hplayer := hfree player hp
      have hnotmem : ∀ pt, pt ∈ st.parties → ∀ m, m ∈ pt.members → m.socketId ≠ sid := by
        intro pt hpt m hm hms
        obtain ⟨p, hpl, hcode⟩ := hmem pt hpt m hm
        rw [hms, hp] at hpl
        injection hpl with h'
        subst h'
        rw [hplayer] at hcode
        cases hcode
      have hset := pset_fresh st.parties ⟨code, [⟨sid, dn.trim, .waiting, none⟩], now⟩ hfresh
      constructor
      · intro pt hpt m hm
        have hpt2 : pt ∈ pset st.parties ⟨code, [⟨sid, dn.trim, .waiting, none⟩], now⟩ := hpt
        rw [hset] at hpt2
        rcases List.mem_append.mp hpt2 with h1 | h1
        · obtain ⟨p, hpl, hcode⟩ := hmem pt h1 m hm
          have hms : m.socketId ≠ sid := hnotmem pt h1 m hm
          refine ⟨p, ?_, hcode⟩
          show mget (mset st.players sid { player with partyCode := some code, partyDisplayName := some dn.trim }) m.socketId = some p
          rw [mget_mset_ne _ _ _ _ hms]
          exact hpl
        · have hpt' : pt = ⟨code, [⟨sid, dn.trim, .waiting, none⟩], now⟩ := by
            simpa using h1
          subst hpt'
          have hm' : m = ⟨sid, dn.trim, .waiting, none⟩ := by simpa using hm
          subst hm'
          exact ⟨{ player with partyCode := some code, partyDisplayName := some dn.trim }, mget_mset_self st.players sid _, rfl⟩
      · show (pset st.parties ⟨code, [⟨sid, dn.trim, .waiting, none⟩], now⟩).Pairwise (fun a b => a.code ≠ b.code)
        exact pset_pairwise _ _ hpw

theorem partyInv_join (f : String → Bool) (st : ServerState) (sid codeArg dn : String)
    (hinv : PartyInv st)
    (hfree : ∀ p, mget st.players sid = some p → p.partyCode = none) :
    PartyInv (joinPartyOp f st sid codeArg dn).1 := by
  obtain ⟨hmem, hpw⟩ := hinv
  unfold joinPartyOp
  cases hp : mget st.players sid with
  | none => exact ⟨hmem, hpw⟩
  | some player =>
    dsimp only
    cases hne : nameError f dn with
    | some e => exact ⟨hmem, hpw⟩
    | none =>
      dsimp only
      split
      · exact ⟨hmem, hpw⟩
      · cases hpg : pget st.parties codeArg.toUpper with
        | none => exact ⟨hmem, hpw⟩
        | some party =>
          dsimp only
          split
          · exact ⟨hmem, hpw⟩
          · split
            · exact ⟨hmem, hpw⟩
            · have hplayer := hfree player hp
              have hnotmem : ∀ pt, pt ∈ st.parties → ∀ m, m ∈ pt.members →
                  m.socketId ≠ sid := by
                intro pt hpt m hm hms
                obtain ⟨p, hpl, hcode⟩ := hmem pt hpt m hm
                rw [hms, hp] at hpl
                injection hpl with h'
                subst h'
                rw [hplayer] at hcode
                cases hcode
              have hpcode := pget_code st.parties codeArg.toUpper party hpg
              refine ⟨?_, ?_⟩
              · intro pt hpt m hm
                have hpt2 : pt ∈ pset st.parties { party with members := party.members ++ [⟨sid, dn.trim, .waiting, none⟩] } := hpt
                rcases pset_mem_char st.parties _ hpw pt hpt2 with h1 | h1
                · subst h1
                  rcases List.mem_append.mp hm with h2 | h2
                  · have hms : m.socketId ≠ sid :=
                      hnotmem party (pget_mem _ _ _ hpg) m h2
                    obtain ⟨p, hpl, hcode⟩ := hmem party (pget_mem _ _ _ hpg) m h2
                    refine ⟨p, ?_, hcode⟩
                    show mget (mset st.players sid { player with partyCode := some codeArg.toUpper, partyDisplayName := some dn.trim }) m.socketId = some p
                    rw [mget_mset_ne _ _ _ _ hms]
                    exact hpl
                  · have hm' : m = ⟨sid, dn.trim, .waiting, none⟩ := by simpa using h2
                    subst hm'
                    refine ⟨{ player with partyCode := some codeArg.toUpper, partyDisplayName := some dn.trim }, mget_mset_self st.players sid _, ?_⟩
                    show some codeArg.toUpper = some party.code
                    rw [hpcode]
                · have hms : m.socketId ≠ sid := hnotmem pt h1.1 m hm
                  obtain ⟨p, hpl, hcode⟩ := hmem pt h1.1 m hm
                  refine ⟨p, ?_, hcode⟩
                  show mget (mset st.players sid { player with partyCode := some codeArg.toUpper, partyDisplayName := some dn.trim }) m.socketId = some p
                  rw [mget_mset_ne _ _ _ _ hms]
                  exact hpl
              · show (pset st.parties { party with members := party.members ++ [⟨sid, dn.trim, .waiting, none⟩] }).Pairwise (fun a b => a.code ≠ b.code)
                exact pset_pairwise _ _ hpw

/-- Claim C7 (amended): the party-membership invariant — every member of an
active party is a connected session whose stored party code names that
party, and codes are unique, which forces each session into at most one
party — is preserved by `leaveParty` and by disconnection unconditionally,
and by `createParty`/`joinParty` only when the caller is not already in a
party (the code performs no such check: see the counterexample, where a
second `createParty` leaves the session in two member lists). -/
theorem session_single_party (st : ServerState) (hinv : PartyInv st) :
    (∀ sid, (partiesWith st sid).length ≤ 1) ∧
    (∀ pt, pt ∈ st.parties → ∀ m, m ∈ pt.members →
      ∃ p, mget st.players m.socketId = some p ∧ p.partyCode = some pt.code) ∧
    (∀ sid, PartyInv (leavePartyOp st sid)) ∧
    (∀ sid, PartyInv (disconnectOp st sid)) ∧
    (∀ f sid dn code now, pget st.parties code = none →
      (∀ p, mget st.players sid = some p → p.partyCode = none) →
      PartyInv (createPartyOp f st sid dn code now).1) ∧
    (∀ f sid codeArg dn, (∀ p, mget st.players sid = some p → p.partyCode = none) →
      PartyInv (joinPartyOp f st sid codeArg dn).1) :=
  ⟨fun sid => partyInv_at_most_one st hinv sid,
   hinv.1,
   fun sid => partyInv_leave st sid hinv,
   fun sid => partyInv_disconnect st sid hinv,
   fun f sid dn code now hfresh hfree => partyInv_create f st sid dn code now hinv hfresh hfree,
   fun f sid codeArg dn hfree => partyInv_join f st sid codeArg dn hinv hfree⟩

/-- Claim C7 counterexample: a session that creates a second party without
leaving the first ends up in the member lists of two active parties. -/
theorem session_single_party_counterexample :
    (partiesWith stTwoParties "s").length = 2 ∧
    ¬ (partiesWith stTwoParties "s").length ≤ 1 :=
  of_decide_eq_true (by with_unfolding_all rfl)

/-- Witness for C7 on the one-party state. -/
theorem session_single_party_witness :
    PartyInv stOneParty ∧ (partiesWith stOneParty "s").length ≤ 1 := by
  have hparties : stOneParty.parties =
      [⟨"AAAAAA", [⟨"s", "alice", MemberStatus.waiting, none⟩], 0⟩] := by
    with_unfolding_all rfl
  have hplayer : mget stOneParty.players "s" =
      some { freshPlayer with partyCode := some "AAAAAA", partyDisplayName := some "alice" } := by
    with_unfolding_all rfl
  have hinv : PartyInv stOneParty := by
    constructor
    · intro pt hpt m hm
      rw [hparties] at hpt
      have hpt' : pt = ⟨"AAAAAA", [⟨"s", "alice", MemberStatus.waiting, none⟩], 0⟩ := by
        simpa using hpt
      subst hpt'
      have hm' : m = ⟨"s", "alice", MemberStatus.waiting, none⟩ := by simpa using hm
      subst hm'
      exact ⟨{ freshPlayer with partyCode := some "AAAAAA", partyDisplayName := some "alice" }, hplayer, rfl⟩
    · rw [hparties]
      simp
  exact ⟨hinv, (session_single_party stOneParty hinv).1 "s"⟩

/-! ### Keyed-list lemmas for the round machinery -/

theorem mget_mem {α : Type} : ∀ (l : List (String × α)) (k : String) (v : α),
    mget l k = some v → (k, v) ∈ l := by
  intro l
  induction l with
  | nil => intro k v h; exact absurd h (by simp [mget])
  | cons e rest ih =>
    intro k v h
    obtain ⟨k', v'⟩ := e
    rw [mget] at h
    by_cases hk : k' = k
    · rw [if_pos hk] at h
      injection h with h
      subst hk; subst h
      exact List.mem_cons_self _ _
    · rw [if_neg hk] at h
      exact List.mem_cons_of_mem _ (ih k v h)

theorem nodup_mem_mget {α : Type} : ∀ (l : List (String × α)), NodupKeys l →
    ∀ (k : String) (v : α), (k, v) ∈ l → mget l k = some v := by
  intro l
  induction l with
  | nil => intro _ k v h; exact absurd h (List.not_mem_nil _)
  | cons e rest ih =>
    intro hn k v h
    obtain ⟨k', v'⟩ := e
    rw [NodupKeys, List.map_cons, List.nodup_cons] at hn
    rw [mget]
    rcases List.mem_cons.mp h with h1 | h1
    · have h1a : k = k' := congrArg Prod.fst h1
      have h1b : v = v' := congrArg Prod.snd h1
      rw [if_pos h1a.symm, ← h1b]
    · by_cases hk : k' = k
      · exact absurd (List.mem_map.mpr ⟨(k, v), h1, hk.symm⟩) hn.1
      · rw [if_neg hk]
        exact ih hn.2 k v h1

theorem mem_keys_of_mget {α : Type} (l : List (String × α)) (k : String) (v : α)
    (h : mget l k = some v) : k ∈ l.map Prod.fst :=
  List.mem_map.mpr ⟨(k, v), mget_mem l k v h, rfl⟩

theorem mset_keys {α : Type} : ∀ (l : List (String × α)) (k : String) (v0 v : α),
    mget l k = some v0 → (mset l k v).map Prod.fst = l.map Prod.fst := by
  intro l
  induction l with
  | nil => intro k v0 v h; exact absurd h (by simp [mget])
  | cons e rest ih =>
    intro k v0 v h
    obtain ⟨k', v'⟩ := e
    rw [mget] at h
    rw [mset]
    by_cases hk : k' = k
    · rw [if_pos hk]
      simp [hk]
    · rw [if_neg hk] at h ⊢
      simp only [List.map_cons]
      rw [ih k v0 v h]

theorem key_mem_mset {α : Type} : ∀ (l : List (String × α)) (k : String) (v : α) (k2 : String),
    k2 ∈ (mset l k v).map Prod.fst → k2 ∈ l.map Prod.fst ∨ k2 = k := by
  intro l
  induction l with
  | nil =>
    intro k v k2 h
    right
    simpa [mset] using h
  | cons e rest ih =>
    intro k v k2 h
    obtain ⟨k', v'⟩ := e
    rw [mset] at h
    by_cases hk : k' = k
    · rw [if_pos hk] at h
      rcases (by simpa using h : k2 = k ∨ k2 ∈ rest.map Prod.fst) with h1 | h1
      · right; exact h1
      · left; simp [h1]
    · rw [if_neg hk] at h
      rcases (by simpa using h : k2 = k' ∨ k2 ∈ (mset rest k v).map Prod.fst) with h1 | h1
      · left; simp [h1]
      · rcases ih k v k2 h1 with h2 | h2
        · left; simp [h2]
        · right; exact h2

theorem nodup_mset {α : Type} : ∀ (l : List (String × α)) (k : String) (v : α),
    NodupKeys l → NodupKeys (mset l k v) := by
  intro l
  induction l with
  | nil => intro k v _; simp [mset, NodupKeys]
  | cons e rest ih =>
    intro k v hn
    obtain ⟨k', v'⟩ := e
    rw [NodupKeys, List.map_cons, List.nodup_cons] at hn
    rw [mset]
    by_cases hk : k' = k
    · rw [if_pos hk, NodupKeys, List.map_cons, List.nodup_cons]
      exact ⟨by rw [← hk]; exact hn.1, hn.2⟩
    · rw [if_neg hk, NodupKeys, List.map_cons, List.nodup_cons]
      refine ⟨fun hmem => ?_, ih k v hn.2⟩
      rcases key_mem_mset rest k v k' hmem with h2 | h2
      · exact hn.1 h2
      · exact hk h2

theorem mget_mset_isSome {α : Type} (l : List (String × α)) (k k' : String) (v : α)
    (h : (mget l k').isSome) : (mget (mset l k v) k').isSome := by
  by_cases hk : k' = k
  · subst hk
    rw [mget_mset_self]
    rfl
  · rw [mget_mset_ne l k v k' hk]
    exact h

/-! ### Stage lemmas: keys, identities and activity through a game step -/

theorem StageOk.srefl (l : List (String × PlayerState)) : StageOk l l :=
  ⟨rfl, rfl, fun _ p' h ha => ⟨p', h, ha⟩⟩

theorem StageOk.sttrans {l1 l2 l3 : List (String × PlayerState)}
    (h1 : StageOk l1 l2) (h2 : StageOk l2 l3) : StageOk l1 l3 :=
  ⟨h2.1.trans h1.1, h2.2.1.trans h1.2.1,
   fun sid p' h ha =>
     match h2.2.2 sid p' h ha with
     | ⟨q, hq, hqa⟩ => h1.2.2 sid q hq hqa⟩

theorem stageOk_map (f : PlayerState → PlayerState)
    (hpid : ∀ p, (f p).persistentId = p.persistentId)
    (hact : ∀ p, isActive (f p) = true → isActive p = true)
    (l : List (String × PlayerState)) :
    StageOk l (l.map (fun e => (e.1, f e.2))) := by
  refine ⟨?_, ?_, ?_⟩
  · rw [List.map_map]
    rfl
  · rw [pids, pids, List.map_map]
    exact List.map_congr_left (fun e _ => hpid e.2)
  · intro sid p' h ha
    rw [mget_map f l sid] at h
    cases hm : mget l sid with
    | none => rw [hm] at h; exact absurd h (by simp)
    | some p =>
      rw [hm] at h
      injection h with h
      exact ⟨p, rfl, hact p (by rw [h]; exact ha)⟩

theorem pids_mset : ∀ (l : List (String × PlayerState)) (k : String) (p p' : PlayerState),
    mget l k = some p → p'.persistentId = p.persistentId →
    pids (mset l k p') = pids l := by
  intro l
  induction l with
  | nil => intro k p p' h _; exact absurd h (by simp [mget])
  | cons e rest ih =>
    intro k p p' h hpid
    obtain ⟨k', v'⟩ := e
    rw [mget] at h
    by_cases hk : k' = k
    · rw [if_pos hk] at h
      injection h with h
      rw [mset, if_pos hk]
      show (k, p').2.persistentId :: pids rest = (k', v').2.persistentId :: pids rest
      rw [show (k, p').2.persistentId = p'.persistentId from rfl, hpid, ← h]
    · rw [if_neg hk] at h
      have hrec := ih k p p' h hpid
      rw [mset, if_neg hk]
      show (k', v').2.persistentId :: pids (mset rest k p') =
        (k', v').2.persistentId :: pids rest
      rw [hrec]

theorem stageOk_mset (l : List (String × PlayerState)) (k : String) (p p' : PlayerState)
    (hget : mget l k = some p) (hpid : p'.persistentId = p.persistentId)
    (hact : isActive p' = true → isActive p = true) :
    StageOk l (mset l k p') := by
  refine ⟨mset_keys l k p p' hget, pids_mset l k p p' hget hpid, ?_⟩
  intro sid q' h ha
  by_cases hk : sid = k
  · subst hk
    rw [mget_mset_self] at h
    injection h with h
    exact ⟨p, hget, hact (by rw [h]; exact ha)⟩
  · rw [mget_mset_ne l k p' sid hk] at h
    exact ⟨q', h, ha⟩

theorem distinctIds_pids {l l' : List (String × PlayerState)}
    (hp : pids l' = pids l) (h : DistinctIds l) : DistinctIds l' := by
  have hiff : ∀ (m : List (String × PlayerState)),
      m.Pairwise (fun a b => a.2.persistentId = none ∨ a.2.persistentId ≠ b.2.persistentId) ↔
      (pids m).Pairwise (fun a b => a = none ∨ a ≠ b) := by
    intro m
    rw [pids]
    exact (@List.pairwise_map (String × PlayerState) (Option String)
      (fun e => e.2.persistentId) (fun a b => a = none ∨ a ≠ b) m).symm
  rw [DistinctIds] at h ⊢
  exact (hiff l').mpr (hp ▸ (hiff l).mp h)

theorem distinctIds_mget : ∀ (l : List (String × PlayerState)), DistinctIds l →
    ∀ (sid1 sid2 : String) (p1 p2 : PlayerState) (X : String),
    mget l sid1 = some p1 → mget l sid2 = some p2 →
    p1.persistentId = some X → p2.persistentId = some X → sid1 = sid2 := by
  intro l
  induction l with
  | nil => intro _ sid1 sid2 p1 p2 X h1 _ _ _; exact absurd h1 (by simp [mget])
  | cons e rest ih =>
    intro hd sid1 sid2 p1 p2 X h1 h2 hp1 hp2
    obtain ⟨k, v⟩ := e
    rw [DistinctIds, List.pairwise_cons] at hd
    rw [mget] at h1 h2
    by_cases hk1 : k = sid1 <;> by_cases hk2 : k = sid2
    · rw [← hk1, ← hk2]
    · rw [if_pos hk1] at h1
      rw [if_neg hk2] at h2
      injection h1 with h1
      exfalso
      have hmem : (sid2, p2) ∈ rest := mget_mem rest sid2 p2 h2
      rcases hd.1 (sid2, p2) hmem with hc | hc
      · rw [show ((k, v)).2.persistentId = v.persistentId from rfl, h1, hp1] at hc
        exact Option.noConfusion hc
      · rw [show ((k, v)).2.persistentId = v.persistentId from rfl, h1, hp1,
          show ((sid2, p2)).2.persistentId = p2.persistentId from rfl, hp2] at hc
        exact hc rfl
    · rw [if_neg hk1] at h1
      rw [if_pos hk2] at h2
      injection h2 with h2
      exfalso
      have hmem : (sid1, p1) ∈ rest := mget_mem rest sid1 p1 h1
      rcases hd.1 (sid1, p1) hmem with hc | hc
      · rw [show ((k, v)).2.persistentId = v.persistentId from rfl, h2, hp2] at hc
        exact Option.noConfusion hc
      · rw [show ((k, v)).2.persistentId = v.persistentId from rfl, h2, hp2,
          show ((sid1, p1)).2.persistentId = p1.persistentId from rfl, hp1] at hc
        exact hc rfl
    · rw [if_neg hk1] at h1
      rw [if_neg hk2] at h2
      exact ih hd.2 sid1 sid2 p1 p2 X h1 h2 hp1 hp2

theorem pidAt_of_keys_pids : ∀ (l l' : List (String × PlayerState)),
    l'.map Prod.fst = l.map Prod.fst → pids l' = pids l →
    ∀ sid, (mget l' sid).map PlayerState.persistentId =
      (mget l sid).map PlayerState.persistentId := by
  intro l
  induction l with
  | nil =>
    intro l' hk _ sid
    cases l' with
    | nil => rfl
    | cons e rest => exact absurd hk (by simp)
  | cons e rest ih =>
    intro l' hk hp sid
    cases l' with
    | nil => exact absurd hk (by simp)
    | cons e' rest' =>
      obtain ⟨k, v⟩ := e
      obtain ⟨k', v'⟩ := e'
      simp only [List.map_cons, List.cons.injEq] at hk
      simp only [pids, List.map_cons, List.cons.injEq] at hp
      rw [mget, mget, hk.1]
      by_cases hs : k = sid
      · rw [if_pos hs, if_pos hs]
        show some v'.persistentId = some v.persistentId
        rw [hp.1]
      · rw [if_neg hs, if_neg hs]
        exact ih rest' hk.2 hp.2 sid

theorem StageOk.pidAt {l l' : List (String × PlayerState)} (h : StageOk l l') (sid : String) :
    (mget l' sid).map PlayerState.persistentId = (mget l sid).map PlayerState.persistentId :=
  pidAt_of_keys_pids l l' h.1 h.2.1 sid

theorem mget_pid_of_pidAt {l l' : List (String × PlayerState)}
    (h : ∀ sid, (mget l' sid).map PlayerState.persistentId =
      (mget l sid).map PlayerState.persistentId)
    {sid : String} {p : PlayerState} {X : String}
    (hm : mget l sid = some p) (hp : p.persistentId = some X) :
    ∃ p', mget l' sid = some p' ∧ p'.persistentId = some X := by
  have h1 := h sid
  rw [hm] at h1
  cases hm' : mget l' sid with
  | none => rw [hm'] at h1; exact absurd h1 (by simp)
  | some q =>
    rw [hm'] at h1
    refine ⟨q, rfl, ?_⟩
    have h2 : some q.persistentId = some p.persistentId := h1
    injection h2 with h2
    rw [h2, hp]

/-! ### Player-map equations for the round pipeline -/

theorem passTransform_pid (ci : Int) (p : PlayerState) :
    (passTransform ci p).persistentId = p.persistentId := by
  rw [passTransform]
  split
  · split <;> rfl
  · rfl

theorem passTransform_act (ci : Int) (p : PlayerState) :
    isActive (passTransform ci p) = true → isActive p = true := by
  rw [passTransform]
  split
  · intro _
    assumption
  · exact fun h => h

theorem passTransform_dead (ci : Int) (p : PlayerState) (hact : isActive p = true)
    (hc : ¬(p.currentAnswer = some ci)) : isActive (passTransform ci p) = false := by
  rw [passTransform, if_pos hact, if_neg hc]
  simp [isActive]

theorem winTransform_pid (gn T : Nat) (p : PlayerState) :
    (winTransform gn T p).persistentId = p.persistentId := by
  rw [winTransform]
  split
  · cases hpid : p.persistentId <;> simp only [hpid]
  · rfl

theorem winTransform_act (gn T : Nat) (p : PlayerState) :
    isActive (winTransform gn T p) = true → isActive p = true := by
  rw [winTransform]
  split
  · intro _
    assumption
  · exact fun h => h

theorem startTransform_pid (p : PlayerState) :
    (startTransform p).persistentId = p.persistentId := by
  rw [startTransform]
  split <;> rfl

theorem submitAnswerOp_stage (st : ServerState) (sid : String) (a : Int) :
    StageOk st.players (submitAnswerOp st sid a).players := by
  rw [submitAnswerOp]
  cases hm : mget st.players sid with
  | none => exact StageOk.srefl _
  | some player =>
    dsimp only
    split
    · exact stageOk_mset st.players sid player _ hm rfl (fun h => h)
    · exact StageOk.srefl _

theorem submitAll_stage (subs : List (String × Int)) : ∀ st : ServerState,
    StageOk st.players (submitAll st subs).players := by
  induction subs with
  | nil => intro st; exact StageOk.srefl _
  | cons sub rest ih =>
    intro st
    show StageOk st.players (submitAll (submitAnswerOp st sub.1 sub.2) rest).players
    exact StageOk.sttrans (submitAnswerOp_stage st sub.1 sub.2) (ih _)

theorem nextQuestionClear_stage (st : ServerState) :
    StageOk st.players (nextQuestionClear st).players := by
  show StageOk st.players (st.players.map (fun e => (e.1, { e.2 with currentAnswer := none })))
  exact stageOk_map (fun p => { p with currentAnswer := none }) (fun _ => rfl)
    (fun _ h => h) st.players

theorem answerPass_players (ci : Int) :
    ∀ (l : List (String × PlayerState)) (c : Int → Nat) (t : Nat),
    (answerPass ci c t l).players = l.map (fun e => (e.1, passTransform ci e.2)) := by
  intro l
  induction l with
  | nil => intro c t; rfl
  | cons e rest ih =>
    intro c t
    obtain ⟨sid, p⟩ := e
    rw [answerPass]
    by_cases hact : isActive p = true
    · by_cases hc : p.currentAnswer = some ci
      · simp only [hact, hc, if_pos]
        rw [ih, List.map_cons]
        simp [passTransform, hact, hc]
      · simp only [hact, if_pos, hc, if_neg, if_false]
        rw [ih, List.map_cons]
        simp [passTransform, hact, hc]
    · simp only [hact, Bool.false_eq_true, if_false]
      rw [ih, List.map_cons]
      simp [passTransform, hact]

theorem roundPass_stage (st : ServerState) :
    StageOk st.players (roundPass st).players := by
  rw [roundPass, answerPass_players]
  exact stageOk_map _ (passTransform_pid (correctIndexOf st))
    (passTransform_act (correctIndexOf st)) st.players

theorem answerPass_elim_mem (ci : Int) :
    ∀ (l : List (String × PlayerState)) (c : Int → Nat) (t : Nat) (sid : String),
    sid ∈ (answerPass ci c t l).eliminated →
    ∃ p, (sid, p) ∈ l ∧ isActive p = true ∧ ¬(p.currentAnswer = some ci) := by
  intro l
  induction l with
  | nil => intro c t sid h; exact absurd h (List.not_mem_nil _)
  | cons e rest ih =>
    intro c t sid h
    obtain ⟨sid0, p0⟩ := e
    rw [answerPass] at h
    by_cases hact : isActive p0 = true
    · by_cases hc : p0.currentAnswer = some ci
      · simp only [hact, hc, if_pos] at h
        obtain ⟨p, hmem, hrest⟩ := ih _ _ sid h
        exact ⟨p, List.mem_cons_of_mem _ hmem, hrest⟩
      · simp only [hact, if_pos, hc, if_neg, if_false] at h
        rcases List.mem_cons.mp h with h1 | h1
        · subst h1
          exact ⟨p0, List.mem_cons_self _ _, hact, hc⟩
        · obtain ⟨p, hmem, hrest⟩ := ih _ _ sid h1
          exact ⟨p, List.mem_cons_of_mem _ hmem, hrest⟩
    · simp only [hact, Bool.false_eq_true, if_false] at h
      obtain ⟨p, hmem, hrest⟩ := ih _ _ sid h
      exact ⟨p, List.mem_cons_of_mem _ hmem, hrest⟩

theorem elimWrites_stage (ids : List String) : ∀ st gn pos qn,
    StageOk st.players (elimWrites st ids gn pos qn).players := by
  induction ids with
  | nil => intro st gn pos qn; exact StageOk.srefl _
  | cons pid rest ih =>
    intro st gn pos qn
    rw [elimWrites]
    refine StageOk.sttrans ?_ (ih _ gn pos qn)
    cases hm : mget st.players pid with
    | none => exact StageOk.srefl _
    | some player =>
      dsimp only
      cases hpid : player.persistentId <;> cases hpc : player.partyCode <;>
        simp only [hpid, hpc] <;>
        first
          | exact StageOk.srefl _
          | exact stageOk_mset st.players pid player _ hm hpid.symm (fun h => h)
          | (split <;>
              first
                | exact StageOk.srefl _
                | exact stageOk_mset st.players pid player _ hm hpid.symm (fun h => h))

theorem survivorWrites_players (ids : List String) : ∀ st,
    (survivorWrites st ids).players = st.players := by
  induction ids with
  | nil => intro st; rfl
  | cons pid rest ih =>
    intro st
    rw [survivorWrites, ih]
    split <;> first
      | rfl
      | (split <;> first
          | rfl
          | (split <;> rfl))

theorem survivorWrites_ledger (ids : List String) : ∀ st,
    (survivorWrites st ids).ledger = st.ledger := by
  induction ids with
  | nil => intro st; rfl
  | cons pid rest ih =>
    intro st
    rw [survivorWrites, ih]
    split <;> first
      | rfl
      | (split <;> first
          | rfl
          | (split <;> rfl))

theorem winnersFold_fst (gn T : Nat) :
    ∀ (l : List (String × PlayerState)) (led : List (String × LedgerRecord)),
    (winnersFold gn T l led).1 = l.map (fun e => (e.1, winTransform gn T e.2)) := by
  intro l
  induction l with
  | nil => intro led; rfl
  | cons e rest ih =>
    intro led
    obtain ⟨sid, p⟩ := e
    rw [winnersFold]
    by_cases hact : isActive p = true
    · cases hpid : p.persistentId with
      | some persId =>
        simp only [hact, if_pos, hpid]
        rw [ih, List.map_cons]
        simp [winTransform, hact, hpid]
      | none =>
        simp only [hact, if_pos, hpid]
        rw [ih, List.map_cons]
        simp [winTransform, hact, hpid]
    · simp only [hact, Bool.false_eq_true, if_false]
      rw [ih, List.map_cons]
      simp [winTransform, hact]

theorem winnersFold_ledger (gn T : Nat) :
    ∀ (l : List (String × PlayerState)) (led : List (String × LedgerRecord)) (X : String),
    mget (winnersFold gn T l led).2.1 X = mget led X ∨
    ∃ sid p, (sid, p) ∈ l ∧ isActive p = true ∧ p.persistentId = some X := by
  intro l
  induction l with
  | nil => intro led X; left; rfl
  | cons e rest ih =>
    intro led X
    obtain ⟨sid, p⟩ := e
    rw [winnersFold]
    by_cases hact : isActive p = true
    · cases hpid : p.persistentId with
      | some persId =>
        simp only [hact, if_pos, hpid]
        by_cases hX : persId = X
        · right
          exact ⟨sid, p, List.mem_cons_self _ _, hact, by rw [hpid, hX]⟩
        · rcases ih _ X with h | h
          · left
            rw [h, mget_mset_ne led persId _ X (Ne.symm hX)]
          · right
            obtain ⟨sid', p', hmem, hrest⟩ := h
            exact ⟨sid', p', List.mem_cons_of_mem _ hmem, hrest⟩
      | none =>
        simp only [hact, if_pos, hpid]
        rcases ih led X with h | h
        · left
          exact h
        · right
          obtain ⟨sid', p', hmem, hrest⟩ := h
          exact ⟨sid', p', List.mem_cons_of_mem _ hmem, hrest⟩
    · simp only [hact, Bool.false_eq_true, if_false]
      rcases ih led X with h | h
      · left
        exact h
      · right
        obtain ⟨sid', p', hmem, hrest⟩ := h
        exact ⟨sid', p', List.mem_cons_of_mem _ hmem, hrest⟩

theorem winnersFold_nodup (gn T : Nat) :
    ∀ (l : List (String × PlayerState)) (led : List (String × LedgerRecord)),
    NodupKeys led → NodupKeys (winnersFold gn T l led).2.1 := by
  intro l
  induction l with
  | nil => intro led h; exact h
  | cons e rest ih =>
    intro led h
    obtain ⟨sid, p⟩ := e
    rw [winnersFold]
    by_cases hact : isActive p = true
    · cases hpid : p.persistentId with
      | some persId =>
        simp only [hact, if_pos, hpid]
        exact ih _ (nodup_mset led persId _ h)
      | none =>
        simp only [hact, if_pos, hpid]
        exact ih led h
    · simp only [hact, Bool.false_eq_true, if_false]
      exact ih led h

/-! ### The ledger writes of a round -/

theorem elimWrites_cons (st : ServerState) (pid : String) (rest : List String)
    (gn pos qn : Nat) :
    ∃ st1, elimWrites st (pid :: rest) gn pos qn = elimWrites st1 rest gn pos qn ∧
      st1.totalParticipants = st.totalParticipants ∧
      ((st1.players = st.players ∧ st1.ledger = st.ledger ∧
        (∀ p, mget st.players pid = some p → p.persistentId = none)) ∨
       (∃ player persId,
         mget st.players pid = some player ∧ player.persistentId = some persId ∧
         st1.players = mset st.players pid
           { player with hasPlayedToday := true,
                         todayResult := some ⟨pos, st.totalParticipants,
                                              player.correctAnswers, gn⟩ } ∧
         st1.ledger = mset st.ledger persId
           ⟨true, ⟨pos, st.totalParticipants, player.correctAnswers, gn⟩⟩)) := by
  rw [elimWrites]
  cases hm : mget st.players pid with
  | none =>
    exact ⟨st, rfl, rfl, Or.inl ⟨rfl, rfl, fun p hp => Option.noConfusion hp⟩⟩
  | some player =>
    dsimp only
    cases hpid : player.persistentId with
    | none =>
      cases hpc : player.partyCode with
      | none =>
        simp only [hpid, hpc]
        exact ⟨st, rfl, rfl, Or.inl ⟨rfl, rfl,
          fun p hp => by injection hp with hh; rw [← hh]; exact hpid⟩⟩
      | some c =>
        simp only [hpid, hpc]
        cases hpg : pget st.parties c with
        | none =>
          exact ⟨st, rfl, rfl, Or.inl ⟨rfl, rfl,
            fun p hp => by injection hp with hh; rw [← hh]; exact hpid⟩⟩
        | some party =>
          exact ⟨_, rfl, rfl, Or.inl ⟨rfl, rfl,
            fun p hp => by injection hp with hh; rw [← hh]; exact hpid⟩⟩
    | some persId =>
      cases hpc : player.partyCode with
      | none =>
        simp only [hpid, hpc]
        exact ⟨_, rfl, rfl, Or.inr ⟨player, persId, rfl, hpid,
            by simp [hpid, hpc], by simp [hpid, hpc]⟩⟩
      | some c =>
        simp only [hpid, hpc]
        cases hpg : pget
            ({ st with
               ledger := mset st.ledger persId
                 ⟨true, ⟨pos, st.totalParticipants, player.correctAnswers, gn⟩⟩,
               players := mset st.players pid
                 { player with hasPlayedToday := true,
                               todayResult := some ⟨pos, st.totalParticipants,
                                                    player.correctAnswers, gn⟩ } }).parties c with
        | none =>
          exact ⟨_, rfl, rfl, Or.inr ⟨player, persId, rfl, hpid,
            by simp [hpid, hpc], by simp [hpid, hpc]⟩⟩
        | some party =>
          exact ⟨_, rfl, rfl, Or.inr ⟨player, persId, rfl, hpid,
            by simp [hpid, hpc], by simp [hpid, hpc]⟩⟩

theorem elimWrites_ledger_cases (gn pos qn : Nat) (X : String) :
    ∀ (ids : List String) (st : ServerState),
    mget (elimWrites st ids gn pos qn).ledger X = mget st.ledger X ∨
    ∃ sid, sid ∈ ids ∧ ∃ p, mget st.players sid = some p ∧ p.persistentId = some X := by
  intro ids
  induction ids with
  | nil => intro st; left; rfl
  | cons pid rest ih =>
    intro st
    obtain ⟨st1, heq, htot, hch⟩ := elimWrites_cons st pid rest gn pos qn
    rw [heq]
    rcases hch with ⟨hpl, hll, hnone⟩ | ⟨player, persId, hm, hpid, hpl, hll⟩
    · rcases ih st1 with h | h
      · left
        rw [h, hll]
      · right
        obtain ⟨sid, hmem, p1, hp1, hpd⟩ := h
        rw [hpl] at hp1
        exact ⟨sid, List.mem_cons_of_mem _ hmem, p1, hp1, hpd⟩
    · rcases ih st1 with h | h
      · by_cases hX : persId = X
        · right
          exact ⟨pid, List.mem_cons_self _ _, player, hm, by rw [hpid, hX]⟩
        · left
          rw [h, hll, mget_mset_ne st.ledger persId _ X (Ne.symm hX)]
      · right
        obtain ⟨sid, hmem, p1, hp1, hpd⟩ := h
        rw [hpl] at hp1
        by_cases hs : sid = pid
        · subst hs
          rw [mget_mset_self] at hp1
          injection hp1 with hp1
          refine ⟨sid, List.mem_cons_of_mem _ hmem, player, hm, ?_⟩
          have hpe : player.persistentId = p1.persistentId := by
            rw [← hp1]
          rw [hpe]
          exact hpd
        · rw [mget_mset_ne st.players pid _ sid hs] at hp1
          exact ⟨sid, List.mem_cons_of_mem _ hmem, p1, hp1, hpd⟩

theorem elimWrites_ledger_good (gn pos qn : Nat) (X : String) (T : Nat) :
    ∀ (ids : List String) (st : ServerState), st.totalParticipants = T →
    (∀ r, mget st.ledger X = some r → r.hasPlayed = true ∧ r.result.position = pos ∧
      r.result.totalPlayers = T ∧ r.result.gameNumber = gn) →
    ∀ r, mget (elimWrites st ids gn pos qn).ledger X = some r →
      r.hasPlayed = true ∧ r.result.position = pos ∧ r.result.totalPlayers = T ∧
      r.result.gameNumber = gn := by
  intro ids
  induction ids with
  | nil => intro st _ hg r hr; exact hg r hr
  | cons pid rest ih =>
    intro st htot hg r hr
    obtain ⟨st1, heq, ht1, hch⟩ := elimWrites_cons st pid rest gn pos qn
    rw [heq] at hr
    refine ih st1 (ht1.trans htot) ?_ r hr
    rcases hch with ⟨_, hll, _⟩ | ⟨player, persId, _, _, _, hll⟩
    · rw [hll]
      exact hg
    · rw [hll]
      intro r' hr'
      by_cases hX : persId = X
      · subst hX
        rw [mget_mset_self] at hr'
        injection hr' with hr'
        rw [← hr']
        exact ⟨rfl, rfl, htot, rfl⟩
      · rw [mget_mset_ne st.ledger persId _ X (Ne.symm hX)] at hr'
        exact hg r' hr'

theorem elimWrites_ledger_some (gn pos qn : Nat) (X : String) :
    ∀ (ids : List String) (st : ServerState),
    (mget st.ledger X).isSome → (mget (elimWrites st ids gn pos qn).ledger X).isSome := by
  intro ids
  induction ids with
  | nil => intro st h; exact h
  | cons pid rest ih =>
    intro st h
    obtain ⟨st1, heq, _, hch⟩ := elimWrites_cons st pid rest gn pos qn
    rw [heq]
    refine ih st1 ?_
    rcases hch with ⟨_, hll, _⟩ | ⟨player, persId, _, _, _, hll⟩
    · rw [hll]
      exact h
    · rw [hll]
      exact mget_mset_isSome st.ledger persId X _ h

theorem elimWrites_ledger_written (gn pos qn : Nat) (X : String) (T : Nat) :
    ∀ (ids : List String) (st : ServerState), st.totalParticipants = T →
    (∃ sid, sid ∈ ids ∧ ∃ p, mget st.players sid = some p ∧ p.persistentId = some X) →
    ∃ r, mget (elimWrites st ids gn pos qn).ledger X = some r ∧
      r.hasPlayed = true ∧ r.result.position = pos ∧ r.result.totalPlayers = T ∧
      r.result.gameNumber = gn := by
  intro ids
  induction ids with
  | nil =>
    intro st _ hw
    obtain ⟨sid, hmem, _⟩ := hw
    exact absurd hmem (List.not_mem_nil _)
  | cons pid rest ih =>
    intro st htot hw
    obtain ⟨st1, heq, ht1, hch⟩ := elimWrites_cons st pid rest gn pos qn
    rw [heq]
    obtain ⟨sid, hmem, p, hp, hpd⟩ := hw
    rcases List.mem_cons.mp hmem with hs | hs
    · subst hs
      rcases hch with ⟨_, _, hnone⟩ | ⟨player, persId, hm, hpid, hpl, hll⟩
      · rw [hnone p hp] at hpd
        exact Option.noConfusion hpd
      · have hpp : player = p := by
          rw [hm] at hp
          injection hp with hh
        have hpersX : persId = X := by
          have h2 := hpid
          rw [hpp, hpd] at h2
          injection h2 with hh
          exact hh.symm
        have hgood : ∀ r, mget st1.ledger X = some r → r.hasPlayed = true ∧
            r.result.position = pos ∧ r.result.totalPlayers = T ∧
            r.result.gameNumber = gn := by
          intro r hr
          rw [hll, hpersX, mget_mset_self] at hr
          injection hr with hr
          rw [← hr]
          exact ⟨rfl, rfl, htot, rfl⟩
        have hsome : (mget st1.ledger X).isSome := by
          rw [hll, hpersX, mget_mset_self]
          rfl
        have hsome2 := elimWrites_ledger_some gn pos qn X rest st1 hsome
        cases hr2 : mget (elimWrites st1 rest gn pos qn).ledger X with
        | none =>
          rw [hr2] at hsome2
          exact absurd hsome2 (by simp)
        | some r2 =>
          exact ⟨r2, rfl,
            elimWrites_ledger_good gn pos qn X T rest st1 (ht1.trans htot) hgood r2 hr2⟩
    · rcases hch with ⟨hpl, _, _⟩ | ⟨player, persId, hm, hpid, hpl, hll⟩
      · refine ih st1 (ht1.trans htot) ⟨sid, hs, p, ?_, hpd⟩
        rw [hpl]
        exact hp
      · refine ih st1 (ht1.trans htot) ⟨sid, hs, ?_⟩
        by_cases hsp : sid = pid
        · subst hsp
          have hpp : player = p := by
            rw [hm] at hp
            injection hp with hh
          refine ⟨{ player with hasPlayedToday := true,
                                todayResult := some ⟨pos, st.totalParticipants,
                                                     player.correctAnswers, gn⟩ }, ?_, ?_⟩
          · rw [hpl]
            exact mget_mset_self _ _ _
          · show player.persistentId = some X
            rw [hpp]
            exact hpd
        · refine ⟨p, ?_, hpd⟩
          rw [hpl, mget_mset_ne st.players pid _ sid hsp]
          exact hp

theorem elimWrites_nodup_ledger (gn pos qn : Nat) :
    ∀ (ids : List String) (st : ServerState),
    NodupKeys st.ledger → NodupKeys (elimWrites st ids gn pos qn).ledger := by
  intro ids
  induction ids with
  | nil => intro st h; exact h
  | cons pid rest ih =>
    intro st h
    obtain ⟨st1, heq, _, hch⟩ := elimWrites_cons st pid rest gn pos qn
    rw [heq]
    refine ih st1 ?_
    rcases hch with ⟨_, hll, _⟩ | ⟨player, persId, _, _, _, hll⟩
    · rw [hll]
      exact h
    · rw [hll]
      exact nodup_mset st.ledger persId _ h

theorem startFold_players : ∀ (l : List (String × PlayerState)) (ps : List Party),
    (startFold l ps).players = l.map (fun e => (e.1, startTransform e.2)) := by
  intro l
  induction l with
  | nil => intro ps; rfl
  | cons e rest ih =>
    intro ps
    obtain ⟨sid, p⟩ := e
    rw [startFold]
    by_cases hcond : (!p.hasPlayedToday && !p.leftGame) = true
    · simp only [hcond, if_pos]
      rw [ih, List.map_cons]
      simp [startTransform, hcond]
    · simp only [hcond, Bool.false_eq_true, if_false]
      rw [ih, List.map_cons]
      simp [startTransform, hcond]

theorem roundState3_players (st : ServerState) (rand : Nat → ℚ) (gn : Nat) :
    (roundState3 st rand gn).players =
      (elimWrites
        { st with players := (roundPass st).players, aliveGhosts := ghostsCorrect st rand }
        (roundPass st).eliminated gn (elimPosOf st) (st.currentQuestion + 1)).players := by
  rw [roundState3, survivorWrites_players]

theorem roundState3_ledger (st : ServerState) (rand : Nat → ℚ) (gn : Nat) :
    (roundState3 st rand gn).ledger =
      (elimWrites
        { st with players := (roundPass st).players, aliveGhosts := ghostsCorrect st rand }
        (roundPass st).eliminated gn (elimPosOf st) (st.currentQuestion + 1)).ledger := by
  rw [roundState3, survivorWrites_ledger]

theorem processAnswers_state_players (st : ServerState) (rand : Nat → ℚ) (gn : Nat) :
    (processAnswers st rand gn).state.players = (roundState3 st rand gn).players := by
  rw [processAnswers_state]
  split <;> rfl

theorem processAnswers_state_ledger (st : ServerState) (rand : Nat → ℚ) (gn : Nat) :
    (processAnswers st rand gn).state.ledger = (roundState3 st rand gn).ledger := by
  rw [processAnswers_state]
  split <;> rfl

theorem roundState3_stage (st : ServerState) (rand : Nat → ℚ) (gn : Nat) :
    StageOk st.players (roundState3 st rand gn).players := by
  rw [roundState3_players]
  refine StageOk.sttrans (roundPass_stage st) ?_
  exact elimWrites_stage (roundPass st).eliminated
    { st with players := (roundPass st).players, aliveGhosts := ghostsCorrect st rand }
    gn (elimPosOf st) (st.currentQuestion + 1)

theorem processAnswers_stage (st : ServerState) (rand : Nat → ℚ) (gn : Nat) :
    StageOk st.players (processAnswers st rand gn).state.players := by
  rw [processAnswers_state_players]
  exact roundState3_stage st rand gn

theorem roundState3_total (st : ServerState) (rand : Nat → ℚ) (gn : Nat) :
    (roundState3 st rand gn).totalParticipants = st.totalParticipants :=
  (roundState3_shape st rand gn).ptotal

/-- Claim C2, amended: every real participant eliminated in a round is
assigned a tied elimination position on each channel, but the two channels
disagree whenever ghosts are alive.  (a) The daily-ledger record written for
every identified eliminated participant carries the tied position
`alive-after-round + eliminated-this-round`.  (b) Every entry of the
`eliminated` event instead carries
`alive-after-round + ghosts-still-alive + eliminated-this-round + ghosts-eliminated`.
(c) For a valid draw the event position exceeds the ledger position by
exactly the number of ghosts alive entering the round, so the two agree only
when no ghosts are alive.  The original claim's assertion that the ledger
position is also the one sent in the `eliminated` event is refuted by
`tied_elimination_counterexample`. -/
theorem tied_elimination (st : ServerState) (rand : Nat → ℚ) (gn : Nat) :
    (∀ sid p X, sid ∈ (processAnswers st rand gn).eliminated →
      mget st.players sid = some p → p.persistentId = some X →
      ∃ r, mget (processAnswers st rand gn).state.ledger X = some r ∧
        r.hasPlayed = true ∧
        r.result.position =
          (processAnswers st rand gn).alivePlayersCount +
          (processAnswers st rand gn).eliminated.length ∧
        r.result.totalPlayers = st.totalParticipants ∧
        r.result.gameNumber = gn) ∧
    (∀ e, e ∈ (processAnswers st rand gn).elimEvents →
      e.2.position =
        (processAnswers st rand gn).alivePlayersCount +
        (processAnswers st rand gn).state.aliveGhosts +
        (processAnswers st rand gn).eliminated.length +
        (processAnswers st rand gn).ghostsEliminated ∧
      e.2.totalPlayers = st.totalParticipants ∧ e.2.gameNumber = gn) ∧
    (rand 0 < 1 →
      (processAnswers st rand gn).alivePlayersCount +
        (processAnswers st rand gn).state.aliveGhosts +
        (processAnswers st rand gn).eliminated.length +
        (processAnswers st rand gn).ghostsEliminated =
      ((processAnswers st rand gn).alivePlayersCount +
        (processAnswers st rand gn).eliminated.length) + st.aliveGhosts) := by
  refine ⟨?_, ?_, ?_⟩
  · intro sid p X hmem hp hpX
    rw [processAnswers_eliminated] at hmem
    rw [processAnswers_state_ledger, roundState3_ledger]
    have halive : (processAnswers st rand gn).alivePlayersCount +
        (processAnswers st rand gn).eliminated.length = elimPosOf st := by
      rw [processAnswers_alivePlayersCount, processAnswers_eliminated, elimPosOf]
    obtain ⟨p1, hp1, hp1X⟩ :=
      mget_pid_of_pidAt (fun s => (roundPass_stage st).pidAt s) hp hpX
    obtain ⟨r, hr, hr1, hr2, hr3, hr4⟩ :=
      elimWrites_ledger_written gn (elimPosOf st) (st.currentQuestion + 1) X
        st.totalParticipants (roundPass st).eliminated
        { st with players := (roundPass st).players, aliveGhosts := ghostsCorrect st rand }
        rfl ⟨sid, hmem, p1, hp1, hp1X⟩
    exact ⟨r, hr, hr1, by rw [halive]; exact hr2, hr3, hr4⟩
  · intro e he
    have hee : (processAnswers st rand gn).elimEvents =
        (roundPass st).eliminated.filterMap (fun pid =>
          match mget (roundState3 st rand gn).players pid with
          | some p =>
            if p.leftGame then none
            else some (pid,
              (⟨alivePlayersAfter st + (roundState3 st rand gn).aliveGhosts +
                  (roundPass st).eliminated.length + ghostsWrong st rand,
                (roundState3 st rand gn).totalParticipants, p.correctAnswers, gn⟩ :
                StoredResult))
          | none => none) := rfl
    rw [hee] at he
    obtain ⟨pid0, hpid0, hf⟩ := List.mem_filterMap.mp he
    cases hm : mget (roundState3 st rand gn).players pid0 with
    | none =>
      rw [hm] at hf
      exact absurd hf (by simp)
    | some p0 =>
      rw [hm] at hf
      dsimp only at hf
      by_cases hl : p0.leftGame
      · rw [if_pos hl] at hf
        exact absurd hf (by simp)
      · rw [if_neg hl] at hf
        injection hf with hf
        rw [← hf]
        refine ⟨?_, ?_, ?_⟩ <;>
          simp only [processAnswers_alivePlayersCount, processAnswers_state_aliveGhosts,
            processAnswers_eliminated, processAnswers_ghostsEliminated,
            roundState3_aliveGhosts, roundState3_total]
  · intro h1
    have hle := ghostsCorrect_le st rand h1
    simp only [processAnswers_alivePlayersCount, processAnswers_state_aliveGhosts,
      processAnswers_eliminated, processAnswers_ghostsEliminated]
    rw [ghostsWrong]
    omega

/-- C2 counterexample: in `stGhostRound` (ten live ghosts, three wrong real
answers) the identified eliminated player `"C"` gets ledger position
`2 + 3 = 5`, while the `eliminated` event reports position
`2 + 0 + 3 + 10 = 15` for the same player. -/
theorem tied_elimination_counterexample :
    (mget (processAnswers stGhostRound zeroRand 1).state.ledger "idC").map
        (fun r => r.result.position) = some 5 ∧
    ("C", (⟨15, 105, 0, 1⟩ : StoredResult)) ∈
      (processAnswers stGhostRound zeroRand 1).elimEvents ∧
    (5 : Nat) ≠ 15 :=
  of_decide_eq_true (by with_unfolding_all rfl)

/-- C2 witness: the amended ledger clause applied to the concrete round
`stGhostRound` and its eliminated identified player `"C"`. -/
theorem tied_elimination_witness :
    ∃ r, mget (processAnswers stGhostRound zeroRand 1).state.ledger "idC" = some r ∧
      r.hasPlayed = true ∧
      r.result.position = (processAnswers stGhostRound zeroRand 1).alivePlayersCount +
        (processAnswers stGhostRound zeroRand 1).eliminated.length ∧
      r.result.totalPlayers = stGhostRound.totalParticipants ∧
      r.result.gameNumber = 1 :=
  (tied_elimination stGhostRound zeroRand 1).1 "C" (mkPid "idC" (some 1)) "idC"
    (of_decide_eq_true (by with_unfolding_all rfl))
    (of_decide_eq_true (by with_unfolding_all rfl))
    (of_decide_eq_true (by with_unfolding_all rfl))

/-! ### The write-once invariant machinery (C4) -/

theorem stageOk_nodup {l l' : List (String × PlayerState)} (h : StageOk l l')
    (hn : NodupKeys l) : NodupKeys l' := by
  rw [NodupKeys, h.1]
  exact hn

theorem stageOk_distinct {l l' : List (String × PlayerState)} (h : StageOk l l')
    (hd : DistinctIds l) : DistinctIds l' :=
  distinctIds_pids h.2.1 hd

theorem identifyOp_ledger_same_day (st : ServerState) (sid pid today : String)
    (h : st.ledgerDate = today) : (identifyOp st sid pid today).ledger = st.ledger := by
  rw [identifyOp]
  cases hm : mget st.players sid with
  | none => rfl
  | some player =>
    dsimp only
    rw [if_pos h]
    split <;> rfl

theorem endGame_ledger_pres (st : ServerState) (gn : Nat) (X : String)
    (hnodup : NodupKeys st.players)
    (hrecX : ∀ sid p, mget st.players sid = some p → p.persistentId = some X →
      isActive p = false) :
    mget (endGameStep st gn).1.ledger X = mget st.ledger X := by
  rw [endGameStep_fst]
  show mget (winnersFold gn st.totalParticipants st.players st.ledger).2.1 X =
    mget st.ledger X
  rcases winnersFold_ledger gn st.totalParticipants st.players st.ledger X with h | h
  · exact h
  · obtain ⟨sid, p, hmem, hact, hpid⟩ := h
    have hm := nodup_mem_mget st.players hnodup sid p hmem
    rw [hrecX sid p hm hpid] at hact
    exact absurd hact (by simp)

theorem round_writer_active (st stq : ServerState) (X : String)
    (hqs : StageOk st.players stq.players) (hnq : NodupKeys stq.players) :
    ∀ sid, sid ∈ (roundPass stq).eliminated →
    (∃ p1, mget (roundPass stq).players sid = some p1 ∧ p1.persistentId = some X) →
    ∃ p, mget st.players sid = some p ∧ isActive p = true ∧ p.persistentId = some X := by
  intro sid hmem hw
  obtain ⟨p1, hp1, hp1X⟩ := hw
  obtain ⟨p0, hmem0, hact0, _⟩ :=
    answerPass_elim_mem (correctIndexOf stq) stq.players (fun _ => 0) 0 sid hmem
  have hg0 : mget stq.players sid = some p0 := nodup_mem_mget stq.players hnq sid p0 hmem0
  have hpp : mget (roundPass stq).players sid =
      some (passTransform (correctIndexOf stq) p0) := by
    rw [roundPass, answerPass_players, mget_map, hg0]
    rfl
  rw [hpp] at hp1
  injection hp1 with hp1
  have hp0X : p0.persistentId = some X := by
    rw [← passTransform_pid (correctIndexOf stq) p0, hp1, hp1X]
  obtain ⟨p, hp, hact⟩ := hqs.2.2 sid p0 hg0 hact0
  refine ⟨p, hp, hact, ?_⟩
  have hpa := hqs.pidAt sid
  rw [hg0, hp] at hpa
  have h2 : some p0.persistentId = some p.persistentId := hpa
  injection h2 with h2
  rw [← h2]
  exact hp0X

theorem round_writer_dead (stq : ServerState) (hnq : NodupKeys stq.players) :
    ∀ sid, sid ∈ (roundPass stq).eliminated →
    ∀ p1, mget (roundPass stq).players sid = some p1 → isActive p1 = false := by
  intro sid hmem p1 hp1
  obtain ⟨p0, hmem0, hact0, hwrong⟩ :=
    answerPass_elim_mem (correctIndexOf stq) stq.players (fun _ => 0) 0 sid hmem
  have hg0 : mget stq.players sid = some p0 := nodup_mem_mget stq.players hnq sid p0 hmem0
  have hpp : mget (roundPass stq).players sid =
      some (passTransform (correctIndexOf stq) p0) := by
    rw [roundPass, answerPass_players, mget_map, hg0]
    rfl
  rw [hpp] at hp1
  injection hp1 with hp1
  rw [← hp1]
  exact passTransform_dead _ p0 hact0 hwrong

theorem roundApply_inv (st : ServerState) (ri : RoundInput) (gn : Nat)
    (hpl : st.status = GStatus.playing) (hinv : RoundInv st) :
    RoundInv (roundApply st ri gn) ∧
    (∀ X v, mget st.ledger X = some v → mget (roundApply st ri gn).ledger X = some v) := by
  obtain ⟨hnp, hnl, hdist, hrec⟩ := hinv
  have hRec := hrec hpl
  rw [roundApply]
  by_cases hques : st.questions.length ≤ st.currentQuestion
  · rw [if_pos hques]
    constructor
    · refine ⟨?_, ?_, ?_, ?_⟩
      · rw [endGameStep_fst]
        show NodupKeys (winnersFold gn st.totalParticipants st.players st.ledger).1
        rw [winnersFold_fst, NodupKeys, List.map_map]
        exact hnp
      · rw [endGameStep_fst]
        show NodupKeys (winnersFold gn st.totalParticipants st.players st.ledger).2.1
        exact winnersFold_nodup gn st.totalParticipants st.players st.ledger hnl
      · rw [endGameStep_fst]
        show DistinctIds (winnersFold gn st.totalParticipants st.players st.ledger).1
        rw [winnersFold_fst]
        exact distinctIds_pids
          (stageOk_map (winTransform gn st.totalParticipants)
            (winTransform_pid gn st.totalParticipants)
            (winTransform_act gn st.totalParticipants) st.players).2.1 hdist
      · intro hst
        rw [endGameStep_fst] at hst
        simp at hst
    · intro X v hv
      have hpres := endGame_ledger_pres st gn X hnp
        (fun sid p hm hpid => hRec X (by rw [hv]; rfl) sid p hm hpid)
      rw [hpres]
      exact hv
  · rw [if_neg hques]
    set stq := submitAll (nextQuestionClear st) ri.subs with hstq
    set out := processAnswers stq ri.rand gn with hout
    have hqs : StageOk st.players stq.players := by
      rw [hstq]
      exact StageOk.sttrans (nextQuestionClear_stage st) (submitAll_stage ri.subs _)
    have hq : SameExceptPlayers st stq := by
      rw [hstq]
      exact submitAll_clear_shape st ri.subs
    have hnq : NodupKeys stq.players := stageOk_nodup hqs hnp
    have hql : stq.ledger = st.ledger := hq.pledger
    have hsts : StageOk st.players out.state.players := by
      refine StageOk.sttrans hqs ?_
      rw [hout]
      exact processAnswers_stage stq ri.rand gn
    have hled : out.state.ledger = (elimWrites
        { stq with players := (roundPass stq).players,
                   aliveGhosts := ghostsCorrect stq ri.rand }
        (roundPass stq).eliminated gn (elimPosOf stq) (stq.currentQuestion + 1)).ledger := by
      rw [hout, processAnswers_state_ledger, roundState3_ledger]
    have hcases : ∀ X, mget out.state.ledger X = mget st.ledger X ∨
        ∃ sid, sid ∈ (roundPass stq).eliminated ∧
          ∃ p, mget st.players sid = some p ∧ isActive p = true ∧
            p.persistentId = some X := by
      intro X
      rcases elimWrites_ledger_cases gn (elimPosOf stq) (stq.currentQuestion + 1) X
          (roundPass stq).eliminated
          { stq with players := (roundPass stq).players,
                     aliveGhosts := ghostsCorrect stq ri.rand } with h | h
      · left
        rw [hled, h]
        show mget stq.ledger X = mget st.ledger X
        rw [hql]
      · right
        obtain ⟨sid, hmem, p1, hp1, hp1X⟩ := h
        exact ⟨sid, hmem, round_writer_active st stq X hqs hnq sid hmem ⟨p1, hp1, hp1X⟩⟩
    have hpresOut : ∀ X v, mget st.ledger X = some v → mget out.state.ledger X = some v := by
      intro X v hv
      rcases hcases X with h | h
      · rw [h]
        exact hv
      · obtain ⟨sid, _, p, hp, hact, hpid⟩ := h
        rw [hRec X (by rw [hv]; rfl) sid p hp hpid] at hact
        exact absurd hact (by simp)
    have hnodupOutL : NodupKeys out.state.ledger := by
      rw [hled]
      refine elimWrites_nodup_ledger gn (elimPosOf stq) (stq.currentQuestion + 1)
        (roundPass stq).eliminated _ ?_
      show NodupKeys stq.ledger
      rw [hql]
      exact hnl
    have hrecOut : RecordedInactive out.state := by
      intro X hsome sid p4 hp4 hpid4
      by_contra hact4
      have hact4t : isActive p4 = true := by
        cases hb : isActive p4
        · exact absurd hb hact4
        · rfl
      obtain ⟨p, hp, hact⟩ := hsts.2.2 sid p4 hp4 hact4t
      have hpa := hsts.pidAt sid
      rw [hp4, hp] at hpa
      have h2 : some p4.persistentId = some p.persistentId := hpa
      injection h2 with h2
      have hpidp : p.persistentId = some X := by
        rw [← h2]
        exact hpid4
      rcases hcases X with h | h
      · rw [h] at hsome
        rw [hRec X hsome sid p hp hpidp] at hact
        exact absurd hact (by simp)
      · obtain ⟨sid0, hmem0, p0, hp0, hact0, hpid0⟩ := h
        have hss : sid = sid0 :=
          distinctIds_mget st.players hdist sid sid0 p p0 X hp hp0 hpidp hpid0
        subst hss
        have hpass_stage : StageOk (roundPass stq).players out.state.players := by
          rw [hout, processAnswers_state_players, roundState3_players]
          exact elimWrites_stage (roundPass stq).eliminated
            { stq with players := (roundPass stq).players,
                       aliveGhosts := ghostsCorrect stq ri.rand }
            gn (elimPosOf stq) (stq.currentQuestion + 1)
        obtain ⟨p1, hp1, hact1⟩ := hpass_stage.2.2 sid p4 hp4 hact4t
        rw [round_writer_dead stq hnq sid hmem0 p1 hp1] at hact1
        exact absurd hact1 (by simp)
    by_cases hends : out.endsGame = true
    · rw [if_pos hends]
      have hnodupOutP : NodupKeys out.state.players := stageOk_nodup hsts hnp
      constructor
      · refine ⟨?_, ?_, ?_, ?_⟩
        · rw [endGameStep_fst]
          show NodupKeys (winnersFold gn out.state.totalParticipants out.state.players
            out.state.ledger).1
          rw [winnersFold_fst, NodupKeys, List.map_map]
          exact hnodupOutP
        · rw [endGameStep_fst]
          show NodupKeys (winnersFold gn out.state.totalParticipants out.state.players
            out.state.ledger).2.1
          exact winnersFold_nodup gn out.state.totalParticipants out.state.players
            out.state.ledger hnodupOutL
        · rw [endGameStep_fst]
          show DistinctIds (winnersFold gn out.state.totalParticipants out.state.players
            out.state.ledger).1
          rw [winnersFold_fst]
          exact distinctIds_pids
            (stageOk_map (winTransform gn out.state.totalParticipants)
              (winTransform_pid gn out.state.totalParticipants)
              (winTransform_act gn out.state.totalParticipants) out.state.players).2.1
            (stageOk_distinct hsts hdist)
        · intro hst
          rw [endGameStep_fst] at hst
          simp at hst
      · intro X v hv
        have h1 := hpresOut X v hv
        have hpres2 := endGame_ledger_pres out.state gn X hnodupOutP
          (fun sid p hm hpid => hrecOut X (by rw [h1]; rfl) sid p hm hpid)
        rw [hpres2]
        exact h1
    · rw [if_neg hends]
      constructor
      · exact ⟨stageOk_nodup hsts hnp, hnodupOutL, stageOk_distinct hsts hdist,
          fun _ => hrecOut⟩
      · exact hpresOut

theorem runRounds_stuck (gn : Nat) (st : ServerState) (rs : List RoundInput)
    (h : ¬ st.status = GStatus.playing) : runRounds gn st rs = st := by
  cases rs with
  | nil => rfl
  | cons ri rest => rw [runRounds, if_neg h]

theorem runRounds_append (gn : Nat) : ∀ (l1 l2 : List RoundInput) (st : ServerState),
    runRounds gn st (l1 ++ l2) = runRounds gn (runRounds gn st l1) l2 := by
  intro l1
  induction l1 with
  | nil => intro l2 st; rfl
  | cons ri rest ih =>
    intro l2 st
    by_cases h : st.status = GStatus.playing
    · rw [List.cons_append, runRounds, if_pos h, ih]
      congr 1
      rw [runRounds, if_pos h]
    · rw [List.cons_append, runRounds, if_neg h, runRounds, if_neg h,
        runRounds_stuck gn st l2 h]

theorem runRounds_inv (gn : Nat) : ∀ (rs : List RoundInput) (st : ServerState),
    RoundInv st → RoundInv (runRounds gn st rs) ∧
    (∀ X v, mget st.ledger X = some v → mget (runRounds gn st rs).ledger X = some v) := by
  intro rs
  induction rs with
  | nil => intro st h; exact ⟨h, fun X v hv => hv⟩
  | cons ri rest ih =>
    intro st h
    rw [runRounds]
    by_cases hpl : st.status = GStatus.playing
    · rw [if_pos hpl]
      obtain ⟨hstep, hpres⟩ := roundApply_inv st ri gn hpl h
      obtain ⟨hinv2, hpres2⟩ := ih (roundApply st ri gn) hstep
      exact ⟨hinv2, fun X v hv => hpres2 X v (hpres X v hv)⟩
    · rw [if_neg hpl]
      exact ⟨h, fun X v hv => hv⟩

theorem startGame_inv (st : ServerState) (qs : List Question)
    (hnp : NodupKeys st.players) (hnl : NodupKeys st.ledger)
    (hdist : DistinctIds st.players) (hcons : LedgerConsistent st)
    (hpart : ∀ e ∈ st.players, e.2.participatedInGame = false) :
    RoundInv (startGameStep st qs) := by
  have hplayers : (startGameStep st qs).players =
      st.players.map (fun e => (e.1, startTransform e.2)) := by
    show (startFold st.players st.parties).players = _
    exact startFold_players st.players st.parties
  refine ⟨?_, ?_, ?_, ?_⟩
  · rw [NodupKeys, hplayers, List.map_map]
    exact hnp
  · exact hnl
  · rw [hplayers]
    refine distinctIds_pids ?_ hdist
    rw [pids, pids, List.map_map]
    exact List.map_congr_left (fun e _ => startTransform_pid e.2)
  · intro _ X hsome sid p' hp' hpid'
    rw [hplayers, mget_map] at hp'
    cases hm : mget st.players sid with
    | none =>
      rw [hm] at hp'
      exact absurd hp' (by simp)
    | some p =>
      rw [hm] at hp'
      injection hp' with hp'
      have hpidp : p.persistentId = some X := by
        rw [← startTransform_pid p, hp', hpid']
      have hsome' : (mget st.ledger X).isSome := hsome
      have hplayed : p.hasPlayedToday = true := hcons sid p X hm hpidp hsome'
      have hcond : (!p.hasPlayedToday && !p.leftGame) = false := by
        rw [hplayed]
        rfl
      have hself : startTransform p = p := by
        simp [startTransform, hcond]
      rw [← hp', hself]
      have hpart1 := hpart (sid, p) (mget_mem st.players sid p hm)
      simp only at hpart1
      simp [isActive, hpart1]

/-- Claim C4, amended: the write-once behaviour of the daily ledger holds
for a game started from a lobby whose sessions carry pairwise-distinct
identities (and whose flags are consistent with the ledger).  Under those
hypotheses, once a round of the game has written a record for identity `X`,
the record survives every further round and the terminal game end
unchanged, the ledger keeps at most one record per identity, and a same-day
reconnection (`identify`) never writes the ledger.  The original
unconditional claim is refuted by `ledger_write_once_counterexample`: two
sessions identified with the same identity make the game-end winner write
overwrite the elimination record written earlier the same day. -/
theorem ledger_write_once (st : ServerState) (qs : List Question) (gn : Nat)
    (rs1 rs2 : List RoundInput) (X : String) (v : LedgerRecord)
    (hnp : NodupKeys st.players) (hnl : NodupKeys st.ledger)
    (hdist : DistinctIds st.players) (hcons : LedgerConsistent st)
    (hpart : ∀ e ∈ st.players, e.2.participatedInGame = false)
    (hwritten : mget (runRounds gn (startGameStep st qs) rs1).ledger X = some v) :
    mget (runRounds gn (startGameStep st qs) (rs1 ++ rs2)).ledger X = some v ∧
    NodupKeys (runRounds gn (startGameStep st qs) (rs1 ++ rs2)).ledger ∧
    (∀ sid pid,
      (identifyOp (runRounds gn (startGameStep st qs) (rs1 ++ rs2)) sid pid
        (runRounds gn (startGameStep st qs) (rs1 ++ rs2)).ledgerDate).ledger =
      (runRounds gn (startGameStep st qs) (rs1 ++ rs2)).ledger) := by
  have hstart := startGame_inv st qs hnp hnl hdist hcons hpart
  obtain ⟨hinv1, _⟩ := runRounds_inv gn rs1 (startGameStep st qs) hstart
  obtain ⟨hinv2, hpres2⟩ := runRounds_inv gn rs2 (runRounds gn (startGameStep st qs) rs1) hinv1
  rw [runRounds_append]
  exact ⟨hpres2 X v hwritten, hinv2.2.1,
    fun sid pid => identifyOp_ledger_same_day _ sid pid _ rfl⟩

/-- C4 counterexample: in the `stSharedId` trace two sessions share the
identity `"X"`; round one writes the elimination record
`position 2, 0 correct`, and the game end of the very same round (the
surviving session holding the same identity wins) overwrites it with
`position 1, 1 correct` on the same day. -/
theorem ledger_write_once_counterexample :
    mget stAfterElim.ledger "X" = some ⟨true, ⟨2, 2, 0, 1⟩⟩ ∧
    stAfterRound = (endGameStep stAfterElim 1).1 ∧
    mget stAfterRound.ledger "X" = some ⟨true, ⟨1, 2, 1, 1⟩⟩ ∧
    ((⟨true, ⟨2, 2, 0, 1⟩⟩ : LedgerRecord) ≠ ⟨true, ⟨1, 2, 1, 1⟩⟩) :=
  of_decide_eq_true (by with_unfolding_all rfl)

/-- C4 witness: the amended theorem applied to the distinct-identity lobby
`stTwoIds`, whose round-one elimination record for `"X1"` survives a second
round (played after the game already ended) unchanged. -/
theorem ledger_write_once_witness :
    mget (runRounds 1 (startGameStep stTwoIds qs10)
        ([roundOneInput] ++ [roundOneInput])).ledger "X1" = some ⟨true, ⟨2, 2, 0, 1⟩⟩ ∧
    NodupKeys (runRounds 1 (startGameStep stTwoIds qs10)
        ([roundOneInput] ++ [roundOneInput])).ledger ∧
    (∀ sid pid,
      (identifyOp (runRounds 1 (startGameStep stTwoIds qs10)
          ([roundOneInput] ++ [roundOneInput])) sid pid
        (runRounds 1 (startGameStep stTwoIds qs10)
          ([roundOneInput] ++ [roundOneInput])).ledgerDate).ledger =
      (runRounds 1 (startGameStep stTwoIds qs10)
        ([roundOneInput] ++ [roundOneInput])).ledger) :=
  ledger_write_once stTwoIds qs10 1 [roundOneInput] [roundOneInput] "X1" ⟨true, ⟨2, 2, 0, 1⟩⟩
    (of_decide_eq_true (by with_unfolding_all rfl))
    (of_decide_eq_true (by with_unfolding_all rfl))
    (of_decide_eq_true (by with_unfolding_all rfl))
    (by
      intro sid p pid hm hpid hsome
      rw [show stTwoIds.ledger = [] from by with_unfolding_all rfl] at hsome
      simp [mget] at hsome)
    (of_decide_eq_true (by with_unfolding_all rfl))
    (of_decide_eq_true (by with_unfolding_all rfl))

end QuizRoyale
